import Mathlib

/-!
The field encoders of be-log.

A shallow embedding of the field encoders of `Bearki/be-log`
(`internal/encoder/field.go`, `encoder/field.go`), of the time constructors of
`field/type_time.go` and of the logger configuration of `logger.go`, with the
properties of the line format and of the JSON format proved over it.

Conventions of the embedding.

* A Go `[]byte` and a Go `string` are both a `List UInt8` (`Bytes`).
* A Go `int64` is an `Int` in `[-2^63, 2^63)`; conversions to `uint64` and
  `uint32` are explicit reductions modulo `2^64` and `2^32`.
* A Go panic (a failed single-value type assertion) is the result `none`.
* What the Go standard library does for floating point numbers and for
  formatted time stamps is not modelled: those renderings are fields of `Env`.
-/

namespace Belog

/-- A Go byte slice, and also a Go string (a read-only byte sequence). -/
abbrev Bytes := List UInt8

/-- The bytes of a Go string literal (its UTF-8 encoding). -/
def lit (s : String) : Bytes := s.toList.flatMap String.utf8EncodeChar

/-! ## Go standard library: `strconv` and `time` -/

namespace strconv

/-- The ASCII digit of `d` (for `d < 10`). -/
def digit (d : Nat) : UInt8 := UInt8.ofNat (48 + d % 10)

/-- The digit loop of `strconv.formatBits` in base 10: the least significant
digit of `u` is put in front of `acc` until the rest is a single digit.  The
first argument bounds the number of iterations. -/
def formatBitsLoop : Nat → Nat → Bytes → Bytes
  | 0, u, acc => digit u :: acc
  | fuel + 1, u, acc =>
    if u < 10 then digit u :: acc
    else formatBitsLoop fuel (u / 10) (digit (u % 10) :: acc)

/-- The text `strconv.formatBits(dst, u, 10, neg, true)` appends: the decimal
digits of the magnitude `u`, after a minus sign when `neg`. -/
def formatBits (u : Nat) (neg : Bool) : Bytes :=
  if neg then 45 :: formatBitsLoop u u [] else formatBitsLoop u u []

/-- Go `uint64(i)` of an `int64`: the bit pattern read as unsigned. -/
def toUint64 (i : Int) : Nat := (i % 2 ^ 64).toNat

/-- Go `uint32(i)` of an `int64`: the low 32 bits. -/
def toUint32 (i : Int) : Nat := (i % 2 ^ 32).toNat

/-- Go `int64(x)` of a `uint64`: the bit pattern read as signed. -/
def toInt64 (x : Nat) : Int := if x % 2 ^ 64 < 2 ^ 63 then (x % 2 ^ 64 : Nat) else (x % 2 ^ 64 : Nat) - 2 ^ 64

/-- Arithmetic of `int64`: a mathematical result wrapped into `[-2^63, 2^63)`. -/
def wrapInt64 (i : Int) : Int := toInt64 (toUint64 i)

/-- The function `strconv.AppendInt(dst, i, 10)`: the magnitude is `uint64(-i)`
for a negative `i` (so `-2^63` is handled), `uint64(i)` otherwise. -/
def AppendInt (dst : Bytes) (i : Int) : Bytes :=
  dst ++ formatBits (if i < 0 then toUint64 (-i) else toUint64 i) (decide (i < 0))

/-- The function `strconv.AppendUint(dst, u, 10)`. -/
def AppendUint (dst : Bytes) (u : Nat) : Bytes :=
  dst ++ formatBits u false

/-- The function `strconv.AppendBool`. -/
def AppendBool (dst : Bytes) (b : Bool) : Bytes :=
  dst ++ (if b then lit "true" else lit "false")

end strconv

namespace time

/-- A Go `time.Time` as its Unix seconds and the nanoseconds within the second
(`nsec < 10^9`). -/
structure Time where
  sec : Int
  nsec : Nat
deriving DecidableEq, Repr

/-- The method `Time.UnixMicro`: `unixSec*1e6 + nsec/1e3` in `int64` arithmetic. -/
def Time.UnixMicro (t : Time) : Int :=
  strconv.wrapInt64 (t.sec * 1000000 + (t.nsec / 1000 : Nat))

/-- The function `time.UnixMicro(usec)`: the instant `usec` microseconds after
the epoch, the nanoseconds normalised into `[0, 10^9)`. -/
def UnixMicro (usec : Int) : Time :=
  { sec := usec / 1000000, nsec := (usec % 1000000).toNat * 1000 }

end time

/-! ## Package `field` -/

/-- The constants of `field.Type` the sources name.  Their declaration is not
among the sources, so the encoders take the table as a parameter; a tag is a
natural number, compared with `<=` as the encoders do. -/
structure Types where
  TypeInt : Nat
  TypeInt8 : Nat
  TypeInt16 : Nat
  TypeInt32 : Nat
  TypeInt64 : Nat
  TypeUint : Nat
  TypeUint8 : Nat
  TypeUint16 : Nat
  TypeUint32 : Nat
  TypeUint64 : Nat
  TypeFloat32 : Nat
  TypeFloat64 : Nat
  TypeComplex64 : Nat
  TypeComplex128 : Nat
  TypeBool : Nat
  TypeString : Nat
  TypeError : Nat
  TypeTime : Nat
  TypeDuration : Nat
  TypeNull : Nat
  TypeObjecter : Nat
  TypeTimes : Nat
  TypeDurations : Nat
deriving DecidableEq, Repr

/-- The classes of tags the sources tell apart, each as the interval of its
least and greatest tag: a kind named by one constant is an interval of one tag,
and the signed kinds, the unsigned kinds and the string and error kinds are the
three ranges the encoders test with one comparison pair. -/
def Types.classes (T : Types) : List (Nat × Nat) :=
  [(T.TypeTime, T.TypeTime), (T.TypeInt, T.TypeInt64), (T.TypeUint, T.TypeUint64),
   (T.TypeFloat32, T.TypeFloat32), (T.TypeFloat64, T.TypeFloat64),
   (T.TypeComplex64, T.TypeComplex64), (T.TypeComplex128, T.TypeComplex128),
   (T.TypeNull, T.TypeNull), (T.TypeBool, T.TypeBool), (T.TypeString, T.TypeError),
   (T.TypeObjecter, T.TypeObjecter), (T.TypeDuration, T.TypeDuration),
   (T.TypeTimes, T.TypeTimes), (T.TypeDurations, T.TypeDurations)]

/-- A tag table is valid when its constants are tags of different kinds: the
signed kinds, the unsigned kinds and the string and error kinds each lie in
their range in ascending order, and the classes are pairwise disjoint (so every
other constant is a tag of its own, outside the three ranges). -/
def Types.Valid (T : Types) : Prop :=
  (T.TypeInt ≤ T.TypeInt8 ∧ T.TypeInt8 ≤ T.TypeInt16 ∧ T.TypeInt16 ≤ T.TypeInt32
      ∧ T.TypeInt32 ≤ T.TypeInt64)
    ∧ (T.TypeUint ≤ T.TypeUint8 ∧ T.TypeUint8 ≤ T.TypeUint16 ∧ T.TypeUint16 ≤ T.TypeUint32
      ∧ T.TypeUint32 ≤ T.TypeUint64)
    ∧ T.TypeString ≤ T.TypeError
    ∧ T.classes.Pairwise (fun r s => r.2 < s.1 ∨ s.2 < r.1)

/-- The signed-integer kinds: 8, 16, 32 and 64 bit. -/
def Types.signedKinds (T : Types) : List Nat :=
  [T.TypeInt8, T.TypeInt16, T.TypeInt32, T.TypeInt64]

/-- The unsigned-integer kinds: 8, 16, 32 and 64 bit. -/
def Types.unsignedKinds (T : Types) : List Nat :=
  [T.TypeUint8, T.TypeUint16, T.TypeUint32, T.TypeUint64]

instance (T : Types) : Decidable T.Valid := by
  unfold Types.Valid
  infer_instance

/-- The interface `field.Objecter`, as what a call of each of its two methods
does: `some b` when the call returns the bytes `b`, `none` when it does not
return (the method panics, as on a typed `nil` pointer). -/
structure Objecter where
  ToJSON : Option Bytes
  ToString : Option Bytes
deriving DecidableEq, Repr

/-- The dynamic value of the `Interface` member (a Go `interface{}`): nothing,
a complex number (the bit patterns of its two parts), a value that implements
`Objecter`, one of the slices the constructors `Times` and `Durations` store, or
a value of any other type. -/
inductive Iface where
  | null
  | complex64 (re im : Nat)
  | complex128 (re im : Nat)
  | objecter (o : Objecter)
  | times (vals : List time.Time)
  | durations (vals : List Int)
  | other (id : Nat)
deriving DecidableEq, Repr

/-- The struct `field.Field`.  Its declaration is not among the sources; the
members are those the sources read or set: `Key`, `Type`, `Integer`, `String`,
`Interface` (`field/type_time.go`, `internal/encoder/field.go`) and `ValType`,
`Bytes`, `Prefix`, `Suffix` (`encoder/field.go`).  Each member defaults to the
Go zero value.  The member `Type` is written `Type_`. -/
structure Field where
  Key : Bytes := []
  Type_ : Nat := 0
  ValType : Nat := 0
  Integer : Int := 0
  String : Bytes := []
  Bytes : Belog.Bytes := []
  Interface : Iface := Iface.null
  Prefix : Belog.Bytes := []
  Suffix : Belog.Bytes := []
deriving DecidableEq, Repr

/-- What the encoders take from outside the sources: the tag table, the
renderings of the Go standard library that are not modelled, and the
conversion `convert.IntToBool`. -/
structure Env where
  types : Types
  /-- Text of `strconv.AppendFloat(_, f, 'E', -1, bitSize)` for the float with the given bits. -/
  formatFloat : (bits : Nat) → (bitSize : Nat) → Bytes
  /-- Text of `strconv.FormatComplex(c, 'E', -1, bitSize)` for the parts with the given bits. -/
  formatComplex : (re im : Nat) → (bitSize : Nat) → Bytes
  /-- Text of `t.Format(layout)`. -/
  formatTime : time.Time → Bytes → Bytes
  /-- The layout of the default formatted representation of a time stamp. -/
  defaultLayout : Bytes
  /-- Result of `convert.IntToBool`. -/
  IntToBool : Int → Bool

namespace field

/-- Modelled from the spec: `field.IsValidRange`, which `encoder/field.go`
calls, is not among the sources.  It is the range comparison
`minTag <= tag <= maxTag`, as `isValidRange` of `internal/encoder/field.go`. -/
def IsValidRange (minType valType maxType : Nat) : Bool :=
  decide (minType ≤ valType) && decide (valType ≤ maxType)

/-- The constructor `Time`: the time stamp in microseconds and the first format
given, if any. -/
def Time (T : Types) (key : Bytes) (val : time.Time) (format : List Bytes) : Field :=
  let timeFmt : Bytes := if format.length > 0 then format.headD [] else []
  { Key := key, Type_ := T.TypeTime, Integer := val.UnixMicro, String := timeFmt }

/-- The constructor `Duration`: the duration in nanoseconds. -/
def Duration (T : Types) (key : Bytes) (val : Int) : Field :=
  { Key := key, Type_ := T.TypeDuration, Integer := val }

/-- The constructor `Times`. -/
def Times (T : Types) (key : Bytes) (vals : List time.Time) (format : List Bytes) : Field :=
  let timeFmt : Bytes := if format.length > 0 then format.headD [] else []
  { Key := key, Type_ := T.TypeTimes, Interface := Iface.times vals, String := timeFmt }

/-- The constructor `Durations`. -/
def Durations (T : Types) (key : Bytes) (vals : List Int) : Field :=
  { Key := key, Type_ := T.TypeDurations, Interface := Iface.durations vals }

end field

/-! ## Package `internal/convert` -/

namespace convert

/-- Modelled from the spec: `convert.StringToBytes` is not among the sources.
The message text is appended verbatim, so the conversion keeps every byte. -/
def StringToBytes (s : Bytes) : Bytes := s

end convert

/-! ## Package `internal/encoder` -/

namespace internalEncoder

/-- The function `isValidRange`. -/
def isValidRange (minType valType maxType : Nat) : Bool :=
  decide (minType ≤ valType) && decide (valType ≤ maxType)

/-- Modelled from the spec: `appendTime` of `internal/encoder` is not among the
sources.  With a format string the time stamp is rendered with that format,
between double quotes in JSON mode and bare in line mode; with no format string
(the empty string) JSON mode renders the bare number of microseconds since the
epoch and line mode the default formatted representation. -/
def appendTime (E : Env) (isJson : Bool) (dst : Bytes) (val : time.Time) (format : Bytes) : Bytes :=
  if format = [] then
    if isJson then strconv.AppendInt dst val.UnixMicro
    else dst ++ E.formatTime val E.defaultLayout
  else
    if isJson then dst ++ [34] ++ E.formatTime val format ++ [34]
    else dst ++ E.formatTime val format

/-- The type assertion `val.Interface.(complex64)`. -/
def asComplex64 : Iface → Option (Nat × Nat)
  | Iface.complex64 re im => some (re, im)
  | _ => none

/-- The type assertion `val.Interface.(complex128)`. -/
def asComplex128 : Iface → Option (Nat × Nat)
  | Iface.complex128 re im => some (re, im)
  | _ => none

/-- The type assertion `val.Interface.(field.Objecter)`. -/
def asObjecter : Iface → Option Objecter
  | Iface.objecter o => some o
  | _ => none

/-- The `switch true` statement of `appendFieldValue` (lines 32 to 90): the
first case whose condition holds appends the value to `dst`; with no such case
`dst` is left as it is.  A failed type assertion panics (`none`), and so does a
call of `ToJSON()` or `ToString()` that does not return. -/
def appendValue (E : Env) (isJson : Bool) (dst : Bytes) (val : Field) : Option Bytes :=
  if val.Type_ = E.types.TypeTime then
    some (appendTime E isJson dst (time.UnixMicro val.Integer) val.String)
  else if isValidRange E.types.TypeInt8 val.Type_ E.types.TypeInt64 then
    some (strconv.AppendInt dst val.Integer)
  else if isValidRange E.types.TypeUint8 val.Type_ E.types.TypeUint64 then
    some (strconv.AppendUint dst (strconv.toUint64 val.Integer))
  else if val.Type_ = E.types.TypeFloat32 then
    some (dst ++ E.formatFloat (strconv.toUint32 val.Integer) 32)
  else if val.Type_ = E.types.TypeFloat64 then
    some (dst ++ E.formatFloat (strconv.toUint64 val.Integer) 64)
  else if val.Type_ = E.types.TypeComplex64 then
    (asComplex64 val.Interface).map (fun c => dst ++ E.formatComplex c.1 c.2 64)
  else if val.Type_ = E.types.TypeComplex128 then
    (asComplex128 val.Interface).map (fun c => dst ++ E.formatComplex c.1 c.2 128)
  else if val.Type_ = E.types.TypeNull then
    some (dst ++ val.String)
  else if val.Type_ = E.types.TypeBool then
    some (strconv.AppendBool dst (E.IntToBool val.Integer))
  else if isValidRange E.types.TypeString val.Type_ E.types.TypeError then
    if isJson then some (dst ++ [34] ++ val.String ++ [34])
    else some (dst ++ val.String)
  else if val.Type_ = E.types.TypeObjecter then
    if isJson then (asObjecter val.Interface).bind (fun o => o.ToJSON.map (fun b => dst ++ b))
    else (asObjecter val.Interface).bind (fun o => o.ToString.map (fun b => dst ++ b))
  else some dst

/-- The function `appendFieldValue`: the key, decorated for the format, then
the value. -/
def appendFieldValue (E : Env) (isJson : Bool) (dst : Bytes) (val : Field) : Option Bytes :=
  let dst := if isJson then dst ++ [34] ++ val.Key ++ lit "\": " else dst ++ val.Key ++ lit ": "
  appendValue E isJson dst val

/-- The `for` loop of `AppendFieldAndMsg`. -/
def lineLoop (E : Env) : Bytes → List Field → Option Bytes
  | dst, [] => some dst
  | dst, v :: rest =>
    match appendFieldValue E false dst v with
    | none => none
    | some dst => lineLoop E (dst ++ lit ", ") rest

/-- The function `AppendFieldAndMsg`. -/
def AppendFieldAndMsg (E : Env) (dst : Bytes) (message : Bytes) (val : List Field) : Option Bytes :=
  match lineLoop E dst val with
  | none => none
  | some dst => some (dst ++ convert.StringToBytes message)

/-- The `for` loop of `AppendFieldAndMsgJSON`, at index `i`. -/
def jsonLoop (E : Env) : Nat → Bytes → List Field → Option Bytes
  | _, dst, [] => some dst
  | i, dst, v :: rest =>
    let dst := if i > 0 then dst ++ lit ", " else dst
    match appendFieldValue E true dst v with
    | none => none
    | some dst => jsonLoop E (i + 1) dst rest

/-- The function `AppendFieldAndMsgJSON`. -/
def AppendFieldAndMsgJSON (E : Env) (dst : Bytes) (messageKey message fieldsKey : Bytes)
    (val : List Field) : Option Bytes :=
  let dst := dst ++ [34]
  let dst := dst ++ fieldsKey
  let dst := dst ++ lit "\": \x7b"
  match jsonLoop E 0 dst val with
  | none => none
  | some dst =>
    let dst := dst ++ lit "\x7d, "
    let dst := dst ++ [34]
    let dst := dst ++ messageKey
    let dst := dst ++ lit "\": \""
    let dst := dst ++ convert.StringToBytes message
    some (dst ++ [34])

end internalEncoder

/-! ## Package `encoder` -/

namespace encoder

/-- The function `appendFieldValue` of `encoder/field.go`. -/
def appendFieldValue (E : Env) (dst : Bytes) (val : Field) : Bytes :=
  if field.IsValidRange E.types.TypeInt val.ValType E.types.TypeInt64 then
    strconv.AppendInt dst val.Integer
  else if field.IsValidRange E.types.TypeUint val.ValType E.types.TypeUint64 then
    strconv.AppendUint dst (strconv.toUint64 val.Integer)
  else if val.ValType = E.types.TypeFloat32 then
    dst ++ E.formatFloat (strconv.toUint32 val.Integer) 32
  else if val.ValType = E.types.TypeFloat64 then
    dst ++ E.formatFloat (strconv.toUint64 val.Integer) 64
  else if field.IsValidRange E.types.TypeBool val.ValType E.types.TypeString then
    dst ++ val.Bytes
  else dst

/-- The `for` loop of `AppendFieldAndMsg`. -/
def lineLoop (E : Env) : Bytes → List Field → Bytes
  | dst, [] => dst
  | dst, v :: rest =>
    let dst := dst ++ v.Key
    let dst := dst ++ lit ": "
    let dst := appendFieldValue E dst v
    lineLoop E (dst ++ lit ", ") rest

/-- The function `AppendFieldAndMsg` of `encoder/field.go`. -/
def AppendFieldAndMsg (E : Env) (dst : Bytes) (message : Bytes) (val : List Field) : Bytes :=
  lineLoop E dst val ++ convert.StringToBytes message

/-- The `for` loop of `AppendFieldAndMsgJSON`, with the flag `appendDelimiter`. -/
def jsonLoop (E : Env) : Bool → Bytes → List Field → Bytes
  | _, dst, [] => dst
  | appendDelimiter, dst, v :: rest =>
    let dst := if appendDelimiter then dst ++ lit ", " else dst
    let dst := dst ++ [34]
    let dst := dst ++ v.Key
    let dst := dst ++ lit "\": "
    let dst := dst ++ v.Prefix
    let dst := appendFieldValue E dst v
    let dst := dst ++ v.Suffix
    let appendDelimiter := if !appendDelimiter then true else appendDelimiter
    jsonLoop E appendDelimiter dst rest

/-- The function `AppendFieldAndMsgJSON` of `encoder/field.go`. -/
def AppendFieldAndMsgJSON (E : Env) (dst : Bytes) (messageKey message fieldsKey : Bytes)
    (val : List Field) : Bytes :=
  let dst := dst ++ [34]
  let dst := dst ++ fieldsKey
  let dst := dst ++ lit "\": \x7b"
  let dst := jsonLoop E false dst val
  let dst := dst ++ lit "\x7d, "
  let dst := dst ++ [34]
  let dst := dst ++ messageKey
  let dst := dst ++ lit "\": \""
  let dst := dst ++ convert.StringToBytes message
  dst ++ [34]

end encoder

/-! ## A concrete environment -/

/-- A tag table in the order of the kind list of the data model, the legacy
bounds `TypeInt` and `TypeUint` opening the two integer ranges and the sequence
kinds last; the examples are evaluated with it. -/
def exampleTypes : Types :=
  { TypeInt := 1, TypeInt8 := 2, TypeInt16 := 3, TypeInt32 := 4, TypeInt64 := 5,
    TypeUint := 6, TypeUint8 := 7, TypeUint16 := 8, TypeUint32 := 9, TypeUint64 := 10,
    TypeFloat32 := 11, TypeFloat64 := 12, TypeComplex64 := 13, TypeComplex128 := 14,
    TypeBool := 15, TypeString := 16, TypeError := 17, TypeTime := 18, TypeDuration := 19,
    TypeNull := 20, TypeObjecter := 21, TypeTimes := 22, TypeDurations := 23 }

/-- An environment for the examples.  No example reaches a float, a complex
number or a formatted time stamp other than through the names below: a float
and a complex number are shown as the decimal of their bits, a formatted time
stamp as its layout followed by its microseconds. -/
def exampleEnv : Env :=
  { types := exampleTypes
    formatFloat := fun bits _ => strconv.formatBits bits false
    formatComplex := fun re im _ => strconv.formatBits re false ++ lit "+" ++ strconv.formatBits im false ++ lit "i"
    formatTime := fun t layout => layout ++ lit "@" ++ strconv.AppendInt [] t.UnixMicro
    defaultLayout := lit "2006/01/02 15:04:05"
    IntToBool := fun i => decide (i ≠ 0) }

/-! ## Layout of the two formats, in the words of the specification -/

/-- All the values of a list of optional values, or `none` when one is missing. -/
def sequence : List (Option Bytes) → Option (List Bytes)
  | [] => some []
  | none :: _ => none
  | some x :: rest =>
    match sequence rest with
    | none => none
    | some xs => some (x :: xs)

namespace internalEncoder

/-- The rendered value of a field: what the `switch` of `appendFieldValue`
appends to an empty buffer (`none` when it panics). -/
def renderedValue (E : Env) (isJson : Bool) (val : Field) : Option Bytes :=
  appendValue E isJson [] val

/-- One field of the line format: `key: value, `. -/
def lineItem (E : Env) (val : Field) : Option Bytes :=
  (renderedValue E false val).map (fun v => val.Key ++ lit ": " ++ v ++ lit ", ")

/-- One field of the JSON format: `"key": value`. -/
def jsonItem (E : Env) (val : Field) : Option Bytes :=
  (renderedValue E true val).map (fun v => [34] ++ val.Key ++ lit "\": " ++ v)

end internalEncoder

namespace encoder

/-- One field of the line format: `key: value, `. -/
def lineItem (E : Env) (val : Field) : Bytes :=
  val.Key ++ lit ": " ++ appendFieldValue E [] val ++ lit ", "

/-- One field of the JSON format: `"key": ` and the value between the prefix
and the suffix of the field. -/
def jsonItem (E : Env) (val : Field) : Bytes :=
  [34] ++ val.Key ++ lit "\": " ++ val.Prefix ++ appendFieldValue E [] val ++ val.Suffix

end encoder

/-- The line layout: the buffer, the items one after the other, the message. -/
def lineLayout (dst message : Bytes) (items : List Bytes) : Bytes :=
  dst ++ items.flatten ++ message

/-- The JSON layout: `"fieldsKey": {` items joined by `, ` `}, "messageKey": "message"`. -/
def jsonLayout (dst messageKey message fieldsKey : Bytes) (items : List Bytes) : Bytes :=
  dst ++ [34] ++ fieldsKey ++ lit "\": \x7b" ++ List.intercalate (lit ", ") items ++ lit "\x7d, "
    ++ [34] ++ messageKey ++ lit "\": \"" ++ message ++ [34]

/-! ## Decimal text, in the words of the specification -/

/-- An ASCII decimal digit. -/
def isDigit (b : UInt8) : Bool := decide (48 ≤ b.toNat ∧ b.toNat ≤ 57)

/-- The number a sequence of decimal digits reads as. -/
def readDigits (ds : Bytes) : Nat := ds.foldl (fun acc b => acc * 10 + (b.toNat - 48)) 0

/-- Parsing a decimal: an optional minus sign, then at least one digit and
nothing else. -/
def parseDecimal (s : Bytes) : Option Int :=
  match s with
  | [] => none
  | b :: rest =>
    if b = 45 then
      if !rest.isEmpty && rest.all isDigit then some (-(readDigits rest : Int)) else none
    else
      if (b :: rest).all isDigit then some (readDigits (b :: rest) : Int) else none

/-- The text `s` is the canonical decimal string of `v`: a minus sign exactly
when `v` is negative, then the digits of the magnitude of `v`, at least one and
with no leading zero (the number zero is the single digit `0`). -/
def isCanonicalDecimal (s : Bytes) (v : Int) : Bool :=
  let ds := if v < 0 then s.drop 1 else s
  (decide (0 ≤ v) || s.head? == some 45) && !ds.isEmpty && ds.all isDigit
    && (ds.length == 1 || ds.head? != some 48) && readDigits ds == v.natAbs

/-! ## Payloads that match the kind -/

/-- The `Interface` payload of a field matches its kind for the format: a field
of kind `Complex64` holds a `complex64`, a field of kind `Complex128` a
`complex128`, and a field of kind `Objecter` a value that implements `Objecter`
and whose method for the format (`ToJSON` in JSON mode, `ToString` in line mode)
returns; a field of any other kind may hold anything. -/
def payloadMatches (E : Env) (isJson : Bool) (val : Field) : Bool :=
  (decide (val.Type_ ≠ E.types.TypeComplex64) || (internalEncoder.asComplex64 val.Interface).isSome)
    && (decide (val.Type_ ≠ E.types.TypeComplex128)
      || (internalEncoder.asComplex128 val.Interface).isSome)
    && (decide (val.Type_ ≠ E.types.TypeObjecter)
      || ((internalEncoder.asObjecter val.Interface).bind
            (fun o => if isJson then o.ToJSON else o.ToString)).isSome)

/-! ## Kinds no case names, and fields up to their decorations -/

/-- No case of the `switch` of `internal/encoder` has a condition that holds
for the tag `k`. -/
def internalEncoder.unhandled (E : Env) (k : Nat) : Bool :=
  decide (k ≠ E.types.TypeTime)
    && !internalEncoder.isValidRange E.types.TypeInt8 k E.types.TypeInt64
    && !internalEncoder.isValidRange E.types.TypeUint8 k E.types.TypeUint64
    && decide (k ≠ E.types.TypeFloat32) && decide (k ≠ E.types.TypeFloat64)
    && decide (k ≠ E.types.TypeComplex64) && decide (k ≠ E.types.TypeComplex128)
    && decide (k ≠ E.types.TypeNull) && decide (k ≠ E.types.TypeBool)
    && !internalEncoder.isValidRange E.types.TypeString k E.types.TypeError
    && decide (k ≠ E.types.TypeObjecter)

/-- The kinds whose value is rendered without regard to the format: the
integer kinds, the two float kinds, the two complex kinds, the boolean kind
and the null kind. -/
def Types.plainKinds (T : Types) : List Nat :=
  T.signedKinds ++ T.unsignedKinds
    ++ [T.TypeFloat32, T.TypeFloat64, T.TypeComplex64, T.TypeComplex128, T.TypeBool, T.TypeNull]

/-- A field without its prefix and its suffix. -/
def Field.clearAffixes (val : Field) : Field :=
  { val with Prefix := [], Suffix := [] }

/-! ## Package `field`: the nullable constructors -/

namespace field

/-- Modelled from the spec: `nullField` of package `field` is not among the
sources.  An absent value is a field of the null kind whose text payload is the
literal `null`, under the key given. -/
def nullField (T : Types) (key : Bytes) : Field :=
  { Key := key, Type_ := T.TypeNull, String := lit "null" }

/-- The constructor `Timep`; the pointer is an optional value, `none` for `nil`. -/
def Timep (T : Types) (key : Bytes) (valp : Option time.Time) (format : List Bytes) : Field :=
  match valp with
  | none => nullField T key
  | some val => Time T key val format

/-- The constructor `Durationp`; the pointer is an optional value, `none` for `nil`. -/
def Durationp (T : Types) (key : Bytes) (valp : Option Int) : Field :=
  match valp with
  | none => nullField T key
  | some val => Duration T key val

end field

/-! ## Package `belog`: the logger of `logger.go` -/

namespace time

/-- The method `Time.Unix`. -/
def Time.Unix (t : Time) : Int := t.sec

/-- The method `Time.UnixMilli`: `unixSec*1e3 + nsec/1e6` in `int64` arithmetic. -/
def Time.UnixMilli (t : Time) : Int :=
  strconv.wrapInt64 (t.sec * 1000 + (t.nsec / 1000000 : Nat))

end time

namespace logger

/-- The output functions an engine stands for (`printFuncEngine`). -/
inductive printFuncEngine where
  | printConsoleLog
  | printFileLog
deriving DecidableEq, Repr

/-- A Go map with keys of an unsigned integer type: `none` is the `nil` map,
`some m` a map whose entry for `k` is `m k`. -/
abbrev GoMap (V : Type) := Option (Nat → Option V)

/-- Reading `m[k]` with the comma-ok form; a `nil` map has no entry. -/
def GoMap.get {V : Type} (m : GoMap V) (k : Nat) : Option V :=
  match m with
  | none => none
  | some f => f k

/-- The assignment `m[k] = v` on a map that is not `nil`. -/
def GoMap.set {V : Type} (f : Nat → Option V) (k : Nat) (v : V) : Nat → Option V :=
  fun j => if j = k then some v else f j

/-- The struct `beLog`; `maxSize` and `saveDay` are `uint16`, `skip` is `uint`
(64 bit).  A map value of the `engine` map is `none` for a `nil` function. -/
structure beLog where
  logPath : Bytes := []
  isSplitDay : Bool := false
  isFileLine : Bool := false
  maxSize : Nat := 0
  saveDay : Nat := 0
  skip : Nat := 0
  engine : GoMap (Option printFuncEngine) := none
  level : GoMap UInt8 := none

/-- The engine `EngineConsole`. -/
def EngineConsole : Nat := 1

/-- The engine `EngineFile`. -/
def EngineFile : Nat := 2

/-- The map `engineMap`; a key without an entry reads as the `nil` function. -/
def engineMap (k : Nat) : Option printFuncEngine :=
  if k = EngineConsole then some printFuncEngine.printConsoleLog
  else if k = EngineFile then some printFuncEngine.printFileLog
  else none

/-- The level `LevelTrace`. -/
def LevelTrace : Nat := 1

/-- The level `LevelDebug`. -/
def LevelDebug : Nat := 2

/-- The level `LevelInfo`. -/
def LevelInfo : Nat := 3

/-- The level `LevelWarn`. -/
def LevelWarn : Nat := 4

/-- The level `LevelError`. -/
def LevelError : Nat := 5

/-- The level `LevelFatal`. -/
def LevelFatal : Nat := 6

/-- The map `levelMap`: the letters `T`, `D`, `I`, `W`, `E`, `F` for the levels
1 to 6; a key without an entry reads as the zero byte. -/
def levelMap (k : Nat) : UInt8 :=
  if k = 1 then 84 else if k = 2 then 68 else if k = 3 then 73 else if k = 4 then 87
  else if k = 5 then 69 else if k = 6 then 70 else 0

/-- The method `SetEngine`. -/
def SetEngine (belog : beLog) (val : List Nat) : beLog :=
  let engine : Nat → Option (Option printFuncEngine) :=
    match belog.engine with
    | none => fun _ => none
    | some m => m
  { belog with engine := some (val.foldl (fun m item => GoMap.set m item (engineMap item)) engine) }

/-- The method `SetLevel`. -/
def SetLevel (belog : beLog) (val : List Nat) : beLog :=
  let level : Nat → Option UInt8 :=
    match belog.level with
    | none => fun _ => none
    | some m => m
  { belog with level := some (val.foldl (fun m item => GoMap.set m item (levelMap item)) level) }

/-- The method `OpenSplitDay`. -/
def OpenSplitDay (belog : beLog) : beLog := { belog with isSplitDay := true }

/-- The method `OpenFileLine`. -/
def OpenFileLine (belog : beLog) : beLog := { belog with isFileLine := true }

/-- The method `SetMaxSize`: `byteSize` is the `int` 1024*1024, converted to
`uint16` and multiplied by `maxSize` in `uint16` arithmetic. -/
def SetMaxSize (belog : beLog) (maxSize : Nat) : beLog :=
  let byteSize : Nat := 1024 * 1024
  { belog with maxSize := ((byteSize % 2 ^ 16) * (maxSize % 2 ^ 16)) % 2 ^ 16 }

/-- The method `SetSaveDay`. -/
def SetSaveDay (belog : beLog) (saveDay : Nat) : beLog :=
  { belog with saveDay := saveDay % 2 ^ 16 }

/-- The method `SetSkip`. -/
def SetSkip (belog : beLog) (skip : Nat) : beLog :=
  { belog with skip := (2 + skip % 2 ^ 64) % 2 ^ 64 }

/-- The function `New`. -/
def New : beLog :=
  SetSkip
    (SetSaveDay
      (SetMaxSize
        (SetLevel (SetEngine {} [EngineConsole])
          [LevelTrace, LevelDebug, LevelInfo, LevelWarn, LevelError, LevelFatal])
        100)
      7)
    0

/-- The body shared by the six level methods: with no entry for the level in
the `level` map the method returns at once (`none`); otherwise it calls `print`
with the formatted text and the letter of the level (`some`). -/
def levelMethod (level : Nat) (belog : beLog) (logStr : Bytes) : Option (Bytes × UInt8) :=
  match belog.level.get level with
  | none => none
  | some c => some (logStr, c)

/-- The method `Trace`, `logStr` being the text `fmt.Sprintf` returns. -/
def Trace (belog : beLog) (logStr : Bytes) : Option (Bytes × UInt8) :=
  levelMethod LevelTrace belog logStr

/-- The method `Debug`. -/
def Debug (belog : beLog) (logStr : Bytes) : Option (Bytes × UInt8) :=
  levelMethod LevelDebug belog logStr

/-- The method `Info`. -/
def Info (belog : beLog) (logStr : Bytes) : Option (Bytes × UInt8) :=
  levelMethod LevelInfo belog logStr

/-- The method `Warn`. -/
def Warn (belog : beLog) (logStr : Bytes) : Option (Bytes × UInt8) :=
  levelMethod LevelWarn belog logStr

/-- The method `Error`. -/
def Error (belog : beLog) (logStr : Bytes) : Option (Bytes × UInt8) :=
  levelMethod LevelError belog logStr

/-- The method `Fatal`. -/
def Fatal (belog : beLog) (logStr : Bytes) : Option (Bytes × UInt8) :=
  levelMethod LevelFatal belog logStr

/-- A call of one of the setters of the logger. -/
inductive Setter where
  | setEngine (val : List Nat)
  | setLevel (val : List Nat)
  | openSplitDay
  | openFileLine
  | setMaxSize (maxSize : Nat)
  | setSaveDay (saveDay : Nat)
  | setSkip (skip : Nat)

/-- The logger after one setter call. -/
def Setter.apply (belog : beLog) : Setter → beLog
  | Setter.setEngine val => SetEngine belog val
  | Setter.setLevel val => SetLevel belog val
  | Setter.openSplitDay => OpenSplitDay belog
  | Setter.openFileLine => OpenFileLine belog
  | Setter.setMaxSize n => SetMaxSize belog n
  | Setter.setSaveDay n => SetSaveDay belog n
  | Setter.setSkip n => SetSkip belog n

/-- The logger after a sequence of setter calls. -/
def configure (belog : beLog) (calls : List Setter) : beLog :=
  calls.foldl Setter.apply belog

/-- The expression `currTime.UnixMilli() % currTime.Unix()` of `print`: the Go
remainder truncates toward zero, and a zero divisor panics (`none`). -/
def printMillis (currTime : time.Time) : Option Int :=
  if currTime.Unix = 0 then none else some (Int.tmod currTime.UnixMilli currTime.Unix)

/-- The text of the verb `%03d` of package `fmt`: the decimal digits, padded
with zeros to the width 3, the sign of a negative number counting in the width. -/
def fmt03d (n : Int) : Bytes :=
  if n < 0 then
    45 :: (List.replicate (2 - (strconv.formatBits n.natAbs false).length) 48
      ++ strconv.formatBits n.natAbs false)
  else
    List.replicate (3 - (strconv.formatBits n.toNat false).length) 48
      ++ strconv.formatBits n.toNat false

end logger

/-! ## Lemmas: the encoders only append -/

theorem strconv.AppendInt_eq (dst : Bytes) (i : Int) :
    strconv.AppendInt dst i = dst ++ strconv.AppendInt [] i := by
  simp [strconv.AppendInt]

theorem strconv.AppendUint_eq (dst : Bytes) (u : Nat) :
    strconv.AppendUint dst u = dst ++ strconv.AppendUint [] u := by
  simp [strconv.AppendUint]

theorem strconv.AppendBool_eq (dst : Bytes) (b : Bool) :
    strconv.AppendBool dst b = dst ++ strconv.AppendBool [] b := by
  simp [strconv.AppendBool]

theorem internalEncoder.appendTime_eq (E : Env) (isJson : Bool) (dst : Bytes) (t : time.Time)
    (format : Bytes) :
    appendTime E isJson dst t format = dst ++ appendTime E isJson [] t format := by
  unfold appendTime
  rw [strconv.AppendInt_eq]
  split <;> split <;> simp

theorem map_bind_eq {α : Type} (f : Bytes → Bytes) (o : Option α) (g : α → Option Bytes) :
    Option.map f (o.bind g) = o.bind (fun x => (g x).map f) := by
  cases o <;> rfl

theorem internalEncoder.appendValue_eq (E : Env) (isJson : Bool) (dst : Bytes) (val : Field) :
    appendValue E isJson dst val = (renderedValue E isJson val).map (fun v => dst ++ v) := by
  unfold renderedValue appendValue
  rw [appendTime_eq, strconv.AppendInt_eq, strconv.AppendUint_eq, strconv.AppendBool_eq]
  simp only [apply_ite (Option.map (fun v => dst ++ v)), Option.map_some', map_bind_eq,
    Option.map_map, Function.comp_def, List.append_nil, List.nil_append, List.append_assoc]

theorem encoder.appendFieldValue_eq (E : Env) (dst : Bytes) (val : Field) :
    appendFieldValue E dst val = dst ++ appendFieldValue E [] val := by
  unfold appendFieldValue
  rw [strconv.AppendInt_eq, strconv.AppendUint_eq]
  simp only [apply_ite (fun v => dst ++ v), List.append_nil, List.nil_append]

/-! ## Lemmas: which case of the `switch` a tag selects -/

theorem Types.Valid.apart {T : Types} (h : T.Valid) (i j : Nat) (hij : i < j) (hj : j < 14) :
    (T.classes[i]?.getD (0, 0)).2 < (T.classes[j]?.getD (0, 0)).1
      ∨ (T.classes[j]?.getD (0, 0)).2 < (T.classes[i]?.getD (0, 0)).1 := by
  have hp := List.pairwise_iff_getElem.1 h.2.2.2
  have hl : T.classes.length = 14 := rfl
  have := hp i j (by omega) (by omega) hij
  rw [List.getElem?_eq_getElem (by omega), List.getElem?_eq_getElem (by omega)]
  exact this

theorem Types.Valid.not_in {T : Types} (h : T.Valid) (i j : Nat) (hij : i ≠ j) (hi : i < 14)
    (hj : j < 14) (k : Nat)
    (hk : (T.classes[j]?.getD (0, 0)).1 ≤ k ∧ k ≤ (T.classes[j]?.getD (0, 0)).2) :
    ¬ ((T.classes[i]?.getD (0, 0)).1 ≤ k ∧ k ≤ (T.classes[i]?.getD (0, 0)).2) := by
  rcases Nat.lt_or_gt_of_ne hij with hlt | hgt
  · have a := h.apart i j hlt hj
    omega
  · have a := h.apart j i hgt hi
    omega

/-- For a tag `k` of the class at position `j`, the condition of every case of
the `switch` of `internal/encoder` that belongs to another class is false. -/
theorem Types.Valid.conds {T : Types} (h : T.Valid) (j : Nat) (hj : j < 14) (k : Nat)
    (hk : (T.classes[j]?.getD (0, 0)).1 ≤ k ∧ k ≤ (T.classes[j]?.getD (0, 0)).2) :
    (j ≠ 0 → k ≠ T.TypeTime)
      ∧ (j ≠ 1 → ¬ (T.TypeInt8 ≤ k ∧ k ≤ T.TypeInt64))
      ∧ (j ≠ 2 → ¬ (T.TypeUint8 ≤ k ∧ k ≤ T.TypeUint64))
      ∧ (j ≠ 3 → k ≠ T.TypeFloat32)
      ∧ (j ≠ 4 → k ≠ T.TypeFloat64)
      ∧ (j ≠ 5 → k ≠ T.TypeComplex64)
      ∧ (j ≠ 6 → k ≠ T.TypeComplex128)
      ∧ (j ≠ 7 → k ≠ T.TypeNull)
      ∧ (j ≠ 8 → k ≠ T.TypeBool)
      ∧ (j ≠ 9 → ¬ (T.TypeString ≤ k ∧ k ≤ T.TypeError))
      ∧ (j ≠ 10 → k ≠ T.TypeObjecter) := by
  have c := h.1
  have d := h.2.1
  refine ⟨?_, ?_, ?_, ?_, ?_, ?_, ?_, ?_, ?_, ?_, ?_⟩
  · intro hne
    have a := h.not_in 0 j (Ne.symm hne) (by decide) hj k hk
    simp only [Types.classes, List.getElem?_cons_zero, Option.getD_some] at a
    omega
  · intro hne
    have a := h.not_in 1 j (Ne.symm hne) (by decide) hj k hk
    simp only [Types.classes, List.getElem?_cons_zero, List.getElem?_cons_succ,
      Option.getD_some] at a
    omega
  · intro hne
    have a := h.not_in 2 j (Ne.symm hne) (by decide) hj k hk
    simp only [Types.classes, List.getElem?_cons_zero, List.getElem?_cons_succ,
      Option.getD_some] at a
    omega
  · intro hne
    have a := h.not_in 3 j (Ne.symm hne) (by decide) hj k hk
    simp only [Types.classes, List.getElem?_cons_zero, List.getElem?_cons_succ,
      Option.getD_some] at a
    omega
  · intro hne
    have a := h.not_in 4 j (Ne.symm hne) (by decide) hj k hk
    simp only [Types.classes, List.getElem?_cons_zero, List.getElem?_cons_succ,
      Option.getD_some] at a
    omega
  · intro hne
    have a := h.not_in 5 j (Ne.symm hne) (by decide) hj k hk
    simp only [Types.classes, List.getElem?_cons_zero, List.getElem?_cons_succ,
      Option.getD_some] at a
    omega
  · intro hne
    have a := h.not_in 6 j (Ne.symm hne) (by decide) hj k hk
    simp only [Types.classes, List.getElem?_cons_zero, List.getElem?_cons_succ,
      Option.getD_some] at a
    omega
  · intro hne
    have a := h.not_in 7 j (Ne.symm hne) (by decide) hj k hk
    simp only [Types.classes, List.getElem?_cons_zero, List.getElem?_cons_succ,
      Option.getD_some] at a
    omega
  · intro hne
    have a := h.not_in 8 j (Ne.symm hne) (by decide) hj k hk
    simp only [Types.classes, List.getElem?_cons_zero, List.getElem?_cons_succ,
      Option.getD_some] at a
    omega
  · intro hne
    have a := h.not_in 9 j (Ne.symm hne) (by decide) hj k hk
    simp only [Types.classes, List.getElem?_cons_zero, List.getElem?_cons_succ,
      Option.getD_some] at a
    omega
  · intro hne
    have a := h.not_in 10 j (Ne.symm hne) (by decide) hj k hk
    simp only [Types.classes, List.getElem?_cons_zero, List.getElem?_cons_succ,
      Option.getD_some] at a
    omega

theorem internalEncoder.renderedValue_time (E : Env) (isJson : Bool) (val : Field)
    (hk : val.Type_ = E.types.TypeTime) :
    renderedValue E isJson val
      = some (appendTime E isJson [] (time.UnixMicro val.Integer) val.String) := by
  simp [renderedValue, appendValue, hk]

theorem internalEncoder.renderedValue_signed (E : Env) (h : E.types.Valid) (isJson : Bool)
    (val : Field) (hk : E.types.TypeInt8 ≤ val.Type_ ∧ val.Type_ ≤ E.types.TypeInt64) :
    renderedValue E isJson val = some (strconv.AppendInt [] val.Integer) := by
  have c := h.1
  obtain ⟨c0, -⟩ := h.conds 1 (by decide) val.Type_
    (by simp only [Types.classes, List.getElem?_cons_zero, List.getElem?_cons_succ,
          Option.getD_some]; omega)
  simp [renderedValue, appendValue, isValidRange, c0 (by decide), hk.1, hk.2]

theorem internalEncoder.renderedValue_unsigned (E : Env) (h : E.types.Valid) (isJson : Bool)
    (val : Field) (hk : E.types.TypeUint8 ≤ val.Type_ ∧ val.Type_ ≤ E.types.TypeUint64) :
    renderedValue E isJson val
      = some (strconv.AppendUint [] (strconv.toUint64 val.Integer)) := by
  have d := h.2.1
  obtain ⟨c0, c1, -⟩ := h.conds 2 (by decide) val.Type_
    (by simp only [Types.classes, List.getElem?_cons_zero, List.getElem?_cons_succ,
          Option.getD_some]; omega)
  simp [renderedValue, appendValue, isValidRange, c0 (by decide), c1 (by decide), hk.1, hk.2]

theorem internalEncoder.renderedValue_string (E : Env) (h : E.types.Valid) (isJson : Bool)
    (val : Field) (hk : E.types.TypeString ≤ val.Type_ ∧ val.Type_ ≤ E.types.TypeError) :
    renderedValue E isJson val
      = some (if isJson then [34] ++ val.String ++ [34] else val.String) := by
  obtain ⟨c0, c1, c2, c3, c4, c5, c6, c7, c8, -⟩ := h.conds 9 (by decide) val.Type_
    (by simp only [Types.classes, List.getElem?_cons_zero, List.getElem?_cons_succ,
          Option.getD_some]; omega)
  cases isJson <;>
    simp [renderedValue, appendValue, isValidRange, c0 (by decide), c1 (by decide),
      c2 (by decide), c3 (by decide), c4 (by decide), c5 (by decide), c6 (by decide),
      c7 (by decide), c8 (by decide), hk.1, hk.2]

theorem internalEncoder.renderedValue_objecter (E : Env) (h : E.types.Valid) (isJson : Bool)
    (val : Field) (hk : val.Type_ = E.types.TypeObjecter) :
    renderedValue E isJson val
      = (asObjecter val.Interface).bind (fun o => if isJson then o.ToJSON else o.ToString) := by
  obtain ⟨c0, c1, c2, c3, c4, c5, c6, c7, c8, c9, -⟩ := h.conds 10 (by decide) val.Type_
    (by simp only [Types.classes, List.getElem?_cons_zero, List.getElem?_cons_succ,
          Option.getD_some]; omega)
  rw [hk] at c0 c1 c2 c3 c4 c5 c6 c7 c8 c9
  cases isJson <;>
    simp [renderedValue, appendValue, isValidRange, c0 (by decide), c1 (by decide),
      c2 (by decide), c3 (by decide), c4 (by decide), c5 (by decide), c6 (by decide),
      c7 (by decide), c8 (by decide), c9 (by decide), hk]

/-- A tag no case of the `switch` names: one of the three kinds `Duration`,
`Times` and `Durations`. -/
theorem internalEncoder.renderedValue_unhandled (E : Env) (h : E.types.Valid) (isJson : Bool)
    (val : Field)
    (hk : val.Type_ = E.types.TypeDuration ∨ val.Type_ = E.types.TypeTimes
      ∨ val.Type_ = E.types.TypeDurations) :
    renderedValue E isJson val = some [] := by
  have key : ∀ p : Nat, 11 ≤ p → p < 14 →
      ((E.types.classes[p]?.getD (0, 0)).1 ≤ val.Type_
        ∧ val.Type_ ≤ (E.types.classes[p]?.getD (0, 0)).2) →
      renderedValue E isJson val = some [] := by
    intro p hp1 hp2 hin
    obtain ⟨c0, c1, c2, c3, c4, c5, c6, c7, c8, c9, c10⟩ := h.conds p hp2 val.Type_ hin
    simp [renderedValue, appendValue, isValidRange, c0 (by omega), c1 (by omega),
      c2 (by omega), c3 (by omega), c4 (by omega), c5 (by omega), c6 (by omega),
      c7 (by omega), c8 (by omega), c9 (by omega), c10 (by omega)]
  rcases hk with hk | hk | hk
  · exact key 11 (by decide) (by decide) (by simp [Types.classes, hk])
  · exact key 12 (by decide) (by decide) (by simp [Types.classes, hk])
  · exact key 13 (by decide) (by decide) (by simp [Types.classes, hk])

/-! ## Lemmas: the loops of the encoders -/

theorem internalEncoder.appendFieldValue_line (E : Env) (dst : Bytes) (val : Field) :
    appendFieldValue E false dst val
      = (renderedValue E false val).map (fun v => dst ++ val.Key ++ lit ": " ++ v) := by
  simp only [appendFieldValue, Bool.false_eq_true, if_false]
  rw [appendValue_eq]

theorem internalEncoder.appendFieldValue_json (E : Env) (dst : Bytes) (val : Field) :
    appendFieldValue E true dst val
      = (renderedValue E true val).map (fun v => dst ++ [34] ++ val.Key ++ lit "\": " ++ v) := by
  simp only [appendFieldValue, if_true]
  rw [appendValue_eq]

theorem internalEncoder.lineLoop_eq (E : Env) (val : List Field) : ∀ dst : Bytes,
    lineLoop E dst val
      = (sequence (val.map (lineItem E))).map (fun items => dst ++ items.flatten) := by
  induction val with
  | nil => intro dst; simp [lineLoop, sequence]
  | cons v rest ih =>
    intro dst
    simp only [lineLoop, List.map_cons, lineItem, appendFieldValue_line]
    cases renderedValue E false v with
    | none => simp [sequence]
    | some x =>
      simp only [Option.map_some', sequence, ih]
      cases sequence (rest.map (lineItem E)) with
      | none => simp
      | some xs => simp [List.append_assoc]

theorem internalEncoder.jsonLoop_succ (E : Env) (val : List Field) : ∀ (i : Nat) (dst : Bytes),
    jsonLoop E (i + 1) dst val
      = (sequence (val.map (jsonItem E))).map
          (fun items => dst ++ (items.map (fun x => lit ", " ++ x)).flatten) := by
  induction val with
  | nil => intro i dst; simp [jsonLoop, sequence]
  | cons v rest ih =>
    intro i dst
    simp only [jsonLoop, List.map_cons, jsonItem, appendFieldValue_json, Nat.succ_pos, if_true,
      gt_iff_lt]
    cases renderedValue E true v with
    | none => simp [sequence]
    | some x =>
      simp only [Option.map_some', sequence, ih]
      cases sequence (rest.map (jsonItem E)) with
      | none => simp
      | some xs => simp [List.append_assoc]

theorem intercalate_cons_eq (sep x : Bytes) (xs : List Bytes) :
    List.intercalate sep (x :: xs) = x ++ (xs.map (fun y => sep ++ y)).flatten := by
  induction xs generalizing x with
  | nil => simp [List.intercalate]
  | cons y ys ih =>
    have h := ih y
    simp only [List.intercalate, List.intersperse, List.flatten_cons, List.map_cons] at h ⊢
    rw [h, List.append_assoc]

theorem internalEncoder.jsonLoop_zero (E : Env) (val : List Field) (dst : Bytes) :
    jsonLoop E 0 dst val
      = (sequence (val.map (jsonItem E))).map
          (fun items => dst ++ List.intercalate (lit ", ") items) := by
  cases val with
  | nil => simp [jsonLoop, sequence, List.intercalate]
  | cons v rest =>
    simp only [jsonLoop, List.map_cons, jsonItem, appendFieldValue_json, Nat.lt_irrefl, if_false,
      gt_iff_lt]
    cases renderedValue E true v with
    | none => simp [sequence]
    | some x =>
      simp only [Option.map_some', sequence, jsonLoop_succ]
      cases sequence (rest.map (jsonItem E)) with
      | none => simp
      | some xs => simp [intercalate_cons_eq, List.append_assoc]

theorem encoder.lineLoop_layout (E : Env) (val : List Field) : ∀ dst : Bytes,
    lineLoop E dst val = dst ++ (val.map (lineItem E)).flatten := by
  induction val with
  | nil => intro dst; simp [lineLoop]
  | cons v rest ih =>
    intro dst
    simp only [lineLoop, ih, List.map_cons, List.flatten_cons, lineItem]
    rw [appendFieldValue_eq]
    simp [List.append_assoc]

theorem encoder.jsonLoop_true (E : Env) (val : List Field) : ∀ dst : Bytes,
    jsonLoop E true dst val = dst ++ ((val.map (jsonItem E)).map (fun x => lit ", " ++ x)).flatten := by
  induction val with
  | nil => intro dst; simp [jsonLoop]
  | cons v rest ih =>
    intro dst
    simp only [jsonLoop, ih, List.map_cons, List.flatten_cons, jsonItem, if_true, Bool.not_true,
      Bool.false_eq_true, if_false]
    rw [appendFieldValue_eq]
    simp [List.append_assoc]

theorem encoder.jsonLoop_false (E : Env) (val : List Field) (dst : Bytes) :
    jsonLoop E false dst val = dst ++ List.intercalate (lit ", ") (val.map (jsonItem E)) := by
  cases val with
  | nil => simp [jsonLoop, List.intercalate]
  | cons v rest =>
    simp only [jsonLoop, List.map_cons, jsonItem, if_true, Bool.not_false, Bool.false_eq_true,
      if_false, jsonLoop_true, intercalate_cons_eq]
    rw [appendFieldValue_eq]
    simp [List.append_assoc]

theorem Types.Valid.signed_range {T : Types} (h : T.Valid) {k : Nat} (hk : k ∈ T.signedKinds) :
    T.TypeInt8 ≤ k ∧ k ≤ T.TypeInt64 := by
  have c := h.1
  simp only [Types.signedKinds, List.mem_cons, List.mem_singleton, List.not_mem_nil,
    or_false] at hk
  omega

theorem Types.Valid.unsigned_range {T : Types} (h : T.Valid) {k : Nat}
    (hk : k ∈ T.unsignedKinds) : T.TypeUint8 ≤ k ∧ k ≤ T.TypeUint64 := by
  have d := h.2.1
  simp only [Types.unsignedKinds, List.mem_cons, List.mem_singleton, List.not_mem_nil,
    or_false] at hk
  omega

theorem Types.Valid.string_range {T : Types} (h : T.Valid) {k : Nat}
    (hk : k = T.TypeString ∨ k = T.TypeError) : T.TypeString ≤ k ∧ k ≤ T.TypeError := by
  have e := h.2.2.1
  omega

/-! ## Lemmas: the layout of the two formats -/

theorem internalEncoder.AppendFieldAndMsg_eq (E : Env) (dst message : Bytes) (val : List Field) :
    AppendFieldAndMsg E dst message val
      = (sequence (val.map (lineItem E))).map (lineLayout dst message) := by
  simp only [AppendFieldAndMsg, lineLoop_eq, lineLayout, convert.StringToBytes]
  cases sequence (val.map (lineItem E)) <;> rfl

theorem encoder.AppendFieldAndMsg_layout (E : Env) (dst message : Bytes) (val : List Field) :
    AppendFieldAndMsg E dst message val = lineLayout dst message (val.map (lineItem E)) := by
  simp only [AppendFieldAndMsg, lineLoop_layout, lineLayout, convert.StringToBytes]

theorem internalEncoder.AppendFieldAndMsgJSON_eq (E : Env) (dst messageKey message fieldsKey : Bytes)
    (val : List Field) :
    AppendFieldAndMsgJSON E dst messageKey message fieldsKey val
      = (sequence (val.map (jsonItem E))).map (jsonLayout dst messageKey message fieldsKey) := by
  simp only [AppendFieldAndMsgJSON, jsonLoop_zero, jsonLayout, convert.StringToBytes]
  cases sequence (val.map (jsonItem E)) <;> simp [jsonLayout, List.append_assoc]

theorem encoder.AppendFieldAndMsgJSON_layout (E : Env) (dst messageKey message fieldsKey : Bytes)
    (val : List Field) :
    AppendFieldAndMsgJSON E dst messageKey message fieldsKey val
      = jsonLayout dst messageKey message fieldsKey (val.map (jsonItem E)) := by
  simp only [AppendFieldAndMsgJSON, jsonLoop_false, jsonLayout, convert.StringToBytes]

theorem intersperse_length (sep : Bytes) (items : List Bytes) :
    (List.intersperse sep items).length = items.length + (items.length - 1) := by
  induction items with
  | nil => rfl
  | cons x xs ih =>
    cases xs with
    | nil => rfl
    | cons y ys =>
      simp only [List.intersperse, List.length_cons] at ih ⊢
      omega

/-! ## Lemmas: decimal digits -/

namespace strconv

theorem digit_toNat (d : Nat) : (digit d).toNat = 48 + d % 10 := by
  simp [digit, UInt8.toNat, UInt8.ofNat, Fin.ofNat]
  omega

theorem formatBitsLoop_fuel : ∀ (fuel1 fuel2 u : Nat) (acc : Bytes), u ≤ fuel1 → u ≤ fuel2 →
    formatBitsLoop fuel1 u acc = formatBitsLoop fuel2 u acc := by
  intro fuel1
  induction fuel1 with
  | zero =>
    intro fuel2 u acc h1 _
    have hu : u = 0 := by omega
    subst hu
    cases fuel2 <;> simp [formatBitsLoop]
  | succ n ih =>
    intro fuel2 u acc h1 h2
    cases fuel2 with
    | zero =>
      have hu : u = 0 := by omega
      subst hu
      simp [formatBitsLoop]
    | succ m =>
      simp only [formatBitsLoop]
      split
      · rfl
      · exact ih m (u / 10) _ (by omega) (by omega)

theorem formatBitsLoop_acc : ∀ (fuel u : Nat) (acc : Bytes),
    formatBitsLoop fuel u acc = formatBitsLoop fuel u [] ++ acc := by
  intro fuel
  induction fuel with
  | zero => intro u acc; simp [formatBitsLoop]
  | succ n ih =>
    intro u acc
    simp only [formatBitsLoop]
    split
    · simp
    · rw [ih (u / 10) (digit (u % 10) :: acc), ih (u / 10) [digit (u % 10)]]
      simp

/-- The decimal digits of `u`. -/
theorem formatBits_unfold (u : Nat) :
    formatBits u false
      = if u < 10 then [digit u] else formatBits (u / 10) false ++ [digit (u % 10)] := by
  simp only [formatBits, Bool.false_eq_true, if_false]
  cases u with
  | zero => simp [formatBitsLoop]
  | succ n =>
    simp only [formatBitsLoop]
    split
    · rfl
    · rw [formatBitsLoop_acc, formatBitsLoop_fuel n ((n + 1) / 10) ((n + 1) / 10) [] (by omega)
        (Nat.le_refl _)]

end strconv

theorem readDigits_snoc (ds : Bytes) (b : UInt8) :
    readDigits (ds ++ [b]) = readDigits ds * 10 + (b.toNat - 48) := by
  simp [readDigits, List.foldl_append]

theorem isDigit_digit (d : Nat) : isDigit (strconv.digit d) = true := by
  simp only [isDigit, strconv.digit_toNat, decide_eq_true_eq]
  omega

theorem strconv.formatBits_ne_nil (u : Nat) : formatBits u false ≠ [] := by
  rw [formatBits_unfold]
  split <;> simp

theorem strconv.formatBits_all_digit (u : Nat) : (formatBits u false).all isDigit = true := by
  induction u using Nat.strong_induction_on with
  | _ u ih =>
    rw [formatBits_unfold]
    split
    · simp [isDigit_digit]
    · simp [ih (u / 10) (by omega), isDigit_digit]

theorem strconv.readDigits_formatBits (u : Nat) : readDigits (formatBits u false) = u := by
  induction u using Nat.strong_induction_on with
  | _ u ih =>
    rw [formatBits_unfold]
    split
    · simp only [readDigits, List.foldl_cons, List.foldl_nil, digit_toNat]
      omega
    · rw [readDigits_snoc, ih (u / 10) (by omega), digit_toNat]
      omega

theorem strconv.formatBits_head (u : Nat) (hu : 0 < u) :
    ∃ b rest, formatBits u false = b :: rest ∧ b.toNat ≠ 48 ∧ isDigit b = true := by
  induction u using Nat.strong_induction_on with
  | _ u ih =>
    rw [formatBits_unfold]
    split
    · refine ⟨digit u, [], rfl, ?_, isDigit_digit u⟩
      rw [digit_toNat]
      omega
    · obtain ⟨b, rest, hb, hne, hd⟩ := ih (u / 10) (by omega) (by omega)
      exact ⟨b, rest ++ [digit (u % 10)], by rw [hb]; rfl, hne, hd⟩

theorem strconv.formatBits_zero : formatBits 0 false = [48] := by decide

/-- The digits of a natural number are its canonical decimal string and parse
back to it. -/
theorem strconv.formatBits_canonical (u : Nat) :
    isCanonicalDecimal (formatBits u false) (u : Int) = true
      ∧ parseDecimal (formatBits u false) = some (u : Int) := by
  have hall := formatBits_all_digit u
  have hread := readDigits_formatBits u
  rcases Nat.eq_zero_or_pos u with h0 | hpos
  · subst h0
    constructor <;> decide
  · obtain ⟨b, rest, hb, hne, hd⟩ := formatBits_head u hpos
    have hb45 : b ≠ 45 := by
      intro h
      rw [h] at hd
      exact absurd hd (by decide)
    have hb48 : b ≠ 48 := by
      intro h
      rw [h] at hne
      exact hne rfl
    constructor
    · simp only [isCanonicalDecimal]
      have hnn : ¬ ((u : Int) < 0) := by omega
      simp only [hnn, if_false, hall, hread]
      rw [hb]
      simp [hb48]
    · rw [hb] at hall hread ⊢
      simp only [parseDecimal, hb45, if_false, hall, if_true, hread]

/-- A minus sign before the digits of a positive number is the canonical
decimal string of its negation and parses back to it. -/
theorem strconv.formatBits_neg_canonical (u : Nat) (hu : 0 < u) :
    isCanonicalDecimal (formatBits u true) (-(u : Int)) = true
      ∧ parseDecimal (formatBits u true) = some (-(u : Int)) := by
  have hall := formatBits_all_digit u
  have hread := readDigits_formatBits u
  obtain ⟨b, rest, hb, hne, hd⟩ := formatBits_head u hu
  have hb48 : b ≠ 48 := by
    intro h
    rw [h] at hne
    exact hne rfl
  have hf : formatBits u true = 45 :: formatBits u false := by simp [formatBits]
  rw [hf]
  constructor
  · simp only [isCanonicalDecimal]
    have hneg : (-(u : Int)) < 0 := by omega
    simp only [hneg, if_true, List.drop_succ_cons, List.drop_zero, hall, hread]
    rw [hb]
    simp [hb48]
  · have hne2 : (formatBits u false).isEmpty = false := by rw [hb]; rfl
    simp only [parseDecimal, if_true, hall, hread, hne2]
    simp

theorem strconv.toUint64_toInt64 (x : Nat) (hx : x < 2 ^ 64) : toUint64 (toInt64 x) = x := by
  unfold toUint64 toInt64
  rw [Nat.mod_eq_of_lt hx]
  split <;> omega

theorem strconv.AppendInt_nonneg (v : Int) (h0 : 0 ≤ v) (h1 : v < 2 ^ 63) :
    AppendInt [] v = formatBits v.toNat false := by
  have hlt : ¬ v < 0 := by omega
  have hu : toUint64 v = v.toNat := by
    unfold toUint64
    omega
  simp [AppendInt, hlt, hu]

theorem strconv.AppendInt_neg (v : Int) (h0 : v < 0) (h1 : -2 ^ 63 ≤ v) :
    AppendInt [] v = formatBits (-v).toNat true := by
  have hu : toUint64 (-v) = (-v).toNat := by
    unfold toUint64
    omega
  simp [AppendInt, h0, hu]

/-- The text `strconv.AppendInt` appends for an `int64` is its canonical decimal
string and parses back to it. -/
theorem strconv.AppendInt_canonical (v : Int) (h0 : -2 ^ 63 ≤ v) (h1 : v < 2 ^ 63) :
    isCanonicalDecimal (AppendInt [] v) v = true ∧ parseDecimal (AppendInt [] v) = some v := by
  rcases Int.lt_or_le v 0 with hneg | hpos
  · rw [AppendInt_neg v hneg h0]
    have hv : v = -(((-v).toNat : Nat) : Int) := by omega
    have := formatBits_neg_canonical (-v).toNat (by omega)
    rw [← hv] at this
    exact this
  · rw [AppendInt_nonneg v hpos h1]
    have hv : v = (((v).toNat : Nat) : Int) := by omega
    have := formatBits_canonical v.toNat
    rw [← hv] at this
    exact this

/-- The text `strconv.AppendUint` appends is the canonical decimal string of
the number and parses back to it. -/
theorem strconv.AppendUint_canonical (x : Nat) :
    isCanonicalDecimal (AppendUint [] x) (x : Int) = true
      ∧ parseDecimal (AppendUint [] x) = some (x : Int) := by
  have h : AppendUint [] x = formatBits x false := by simp [AppendUint]
  rw [h]
  exact formatBits_canonical x

theorem encoder.appendFieldValue_signed (E : Env) (h : E.types.Valid) (val : Field)
    (hk : val.ValType ∈ E.types.signedKinds) :
    appendFieldValue E [] val = strconv.AppendInt [] val.Integer := by
  have c := h.1
  have r := h.signed_range hk
  have r1 : E.types.TypeInt ≤ val.ValType := by omega
  simp [appendFieldValue, field.IsValidRange, r1, r.2]

theorem encoder.appendFieldValue_unsigned (E : Env) (h : E.types.Valid) (val : Field)
    (hk : val.ValType ∈ E.types.unsignedKinds) :
    appendFieldValue E [] val = strconv.AppendUint [] (strconv.toUint64 val.Integer) := by
  have d := h.2.1
  have r := h.unsigned_range hk
  have a := h.apart 1 2 (by decide) (by decide)
  simp only [Types.classes, List.getElem?_cons_zero, List.getElem?_cons_succ, Option.getD_some]
    at a
  have r1 : E.types.TypeUint ≤ val.ValType := by omega
  have r2 : ¬ (E.types.TypeInt ≤ val.ValType ∧ val.ValType ≤ E.types.TypeInt64) := by omega
  simp [appendFieldValue, field.IsValidRange, r1, r.2, r2]

/-! ## Lemmas: when the encoders return -/

theorem isSome_map_of {α : Type} (f : α → Bytes) (o : Option α) (h : o.isSome = true) :
    (o.map f).isSome = true := by
  cases o with
  | none => exact h
  | some a => rfl

theorem internalEncoder.renderedValue_isSome (E : Env) (isJson : Bool) (val : Field)
    (h : payloadMatches E isJson val = true) : (renderedValue E isJson val).isSome = true := by
  simp only [payloadMatches, Bool.and_eq_true, Bool.or_eq_true, decide_eq_true_eq, ne_eq] at h
  obtain ⟨⟨h1, h2⟩, h3⟩ := h
  unfold renderedValue appendValue
  by_cases c0 : val.Type_ = E.types.TypeTime
  · rw [if_pos c0]; rfl
  rw [if_neg c0]
  by_cases c1 : isValidRange E.types.TypeInt8 val.Type_ E.types.TypeInt64 = true
  · rw [if_pos c1]; rfl
  rw [if_neg c1]
  by_cases c2 : isValidRange E.types.TypeUint8 val.Type_ E.types.TypeUint64 = true
  · rw [if_pos c2]; rfl
  rw [if_neg c2]
  by_cases c3 : val.Type_ = E.types.TypeFloat32
  · rw [if_pos c3]; rfl
  rw [if_neg c3]
  by_cases c4 : val.Type_ = E.types.TypeFloat64
  · rw [if_pos c4]; rfl
  rw [if_neg c4]
  by_cases c5 : val.Type_ = E.types.TypeComplex64
  · rw [if_pos c5]
    rcases h1 with h1 | h1
    · exact absurd c5 h1
    · exact isSome_map_of _ _ h1
  rw [if_neg c5]
  by_cases c6 : val.Type_ = E.types.TypeComplex128
  · rw [if_pos c6]
    rcases h2 with h2 | h2
    · exact absurd c6 h2
    · exact isSome_map_of _ _ h2
  rw [if_neg c6]
  by_cases c7 : val.Type_ = E.types.TypeNull
  · rw [if_pos c7]; rfl
  rw [if_neg c7]
  by_cases c8 : val.Type_ = E.types.TypeBool
  · rw [if_pos c8]; rfl
  rw [if_neg c8]
  by_cases c9 : isValidRange E.types.TypeString val.Type_ E.types.TypeError = true
  · rw [if_pos c9]
    cases isJson <;> rfl
  rw [if_neg c9]
  by_cases c10 : val.Type_ = E.types.TypeObjecter
  · rw [if_pos c10]
    rcases h3 with h3 | h3
    · exact absurd c10 h3
    · cases isJson
      · simp only [Bool.false_eq_true, if_false] at h3 ⊢
        cases ho : asObjecter val.Interface with
        | none => rw [ho] at h3; exact h3
        | some o =>
          rw [ho] at h3
          exact isSome_map_of _ _ h3
      · simp only [if_true] at h3 ⊢
        cases ho : asObjecter val.Interface with
        | none => rw [ho] at h3; exact h3
        | some o =>
          rw [ho] at h3
          exact isSome_map_of _ _ h3
  rw [if_neg c10]
  rfl

theorem payloadMatches_of_unhandled (E : Env) (isJson : Bool) (val : Field)
    (hk : internalEncoder.unhandled E val.Type_ = true) : payloadMatches E isJson val = true := by
  simp only [internalEncoder.unhandled, Bool.and_eq_true, decide_eq_true_eq, ne_eq] at hk
  obtain ⟨⟨⟨⟨⟨⟨-, c5⟩, c6⟩, -⟩, -⟩, -⟩, c10⟩ := hk
  simp [payloadMatches, c5, c6, c10]

theorem sequence_isSome (xs : List (Option Bytes)) (h : ∀ x ∈ xs, x.isSome = true) :
    (sequence xs).isSome = true := by
  induction xs with
  | nil => rfl
  | cons x rest ih =>
    have hx := h x (List.mem_cons_self _ _)
    have hr := ih (fun y hy => h y (List.mem_cons_of_mem _ hy))
    cases x with
    | none => simp at hx
    | some a =>
      simp only [sequence]
      cases hs : sequence rest with
      | none => rw [hs] at hr; simp at hr
      | some as => rfl

theorem time.UnixMicro_roundtrip (u : Int) (h0 : -2 ^ 63 ≤ u) (h1 : u < 2 ^ 63) :
    (time.UnixMicro u).UnixMicro = u := by
  simp only [time.UnixMicro, time.Time.UnixMicro, strconv.wrapInt64, strconv.toInt64,
    strconv.toUint64]
  have e : (u / 1000000 * 1000000 + (((u % 1000000).toNat * 1000 / 1000 : Nat) : Int)) = u := by
    omega
  rw [e]
  split <;> omega

theorem strconv.wrapInt64_range (i : Int) : -2 ^ 63 ≤ wrapInt64 i ∧ wrapInt64 i < 2 ^ 63 := by
  simp only [wrapInt64, toInt64, toUint64]
  split <;> omega

/-! ## Lemmas: kinds no case names, and kinds rendered alike in both formats -/

theorem internalEncoder.renderedValue_of_unhandled (E : Env) (isJson : Bool) (val : Field)
    (hk : unhandled E val.Type_ = true) : renderedValue E isJson val = some [] := by
  simp only [unhandled, Bool.and_eq_true, decide_eq_true_eq, Bool.not_eq_true', ne_eq] at hk
  obtain ⟨⟨⟨⟨⟨⟨⟨⟨⟨⟨c0, c1⟩, c2⟩, c3⟩, c4⟩, c5⟩, c6⟩, c7⟩, c8⟩, c9⟩, c10⟩ := hk
  unfold renderedValue appendValue
  rw [if_neg c0, if_neg (by rw [c1]; decide), if_neg (by rw [c2]; decide), if_neg c3, if_neg c4,
    if_neg c5, if_neg c6, if_neg c7, if_neg c8, if_neg (by rw [c9]; decide), if_neg c10]

theorem internalEncoder.unhandled_of_valid (E : Env) (h : E.types.Valid) (k : Nat)
    (hk : k = E.types.TypeDuration ∨ k = E.types.TypeTimes ∨ k = E.types.TypeDurations) :
    unhandled E k = true := by
  have key : ∀ p : Nat, 11 ≤ p → p < 14 →
      ((E.types.classes[p]?.getD (0, 0)).1 ≤ k ∧ k ≤ (E.types.classes[p]?.getD (0, 0)).2) →
      unhandled E k = true := by
    intro p hp1 hp2 hin
    obtain ⟨c0, c1, c2, c3, c4, c5, c6, c7, c8, c9, c10⟩ := h.conds p hp2 k hin
    have d1 := c1 (by omega)
    have d2 := c2 (by omega)
    have d9 := c9 (by omega)
    simp only [unhandled, isValidRange, Bool.and_eq_true, decide_eq_true_eq, Bool.not_eq_true',
      Bool.and_eq_false_iff, decide_eq_false_iff_not, ne_eq]
    refine ⟨⟨⟨⟨⟨⟨⟨⟨⟨⟨c0 (by omega), ?_⟩, ?_⟩, c3 (by omega)⟩, c4 (by omega)⟩, c5 (by omega)⟩,
      c6 (by omega)⟩, c7 (by omega)⟩, c8 (by omega)⟩, ?_⟩, c10 (by omega)⟩
    · omega
    · omega
    · omega
  rcases hk with hk | hk | hk
  · exact key 11 (by decide) (by decide) (by simp [Types.classes, hk])
  · exact key 12 (by decide) (by decide) (by simp [Types.classes, hk])
  · exact key 13 (by decide) (by decide) (by simp [Types.classes, hk])

/-- When the cases that look at the format (time stamp, string and error,
object) are not taken, the value does not depend on the format. -/
theorem internalEncoder.renderedValue_mode (E : Env) (val : Field)
    (h0 : val.Type_ ≠ E.types.TypeTime)
    (h9 : ¬ (E.types.TypeString ≤ val.Type_ ∧ val.Type_ ≤ E.types.TypeError))
    (h10 : val.Type_ ≠ E.types.TypeObjecter) :
    renderedValue E true val = renderedValue E false val := by
  have h9b : isValidRange E.types.TypeString val.Type_ E.types.TypeError = false := by
    simp only [isValidRange, Bool.and_eq_false_iff, decide_eq_false_iff_not]
    omega
  unfold renderedValue appendValue
  rw [if_neg h0, if_neg h0, h9b, if_neg h10, if_neg h10]
  rfl

theorem Types.Valid.plain_class {T : Types} (h : T.Valid) {k : Nat} (hk : k ∈ T.plainKinds) :
    ∃ j, 1 ≤ j ∧ j ≤ 8
      ∧ (T.classes[j]?.getD (0, 0)).1 ≤ k ∧ k ≤ (T.classes[j]?.getD (0, 0)).2 := by
  have c := h.1
  have d := h.2.1
  simp only [Types.plainKinds, List.mem_append, List.mem_cons, List.mem_singleton,
    List.not_mem_nil, or_false] at hk
  rcases hk with (hs | hu) | hr
  · have r := h.signed_range hs
    exact ⟨1, by decide, by decide, by simp [Types.classes]; omega⟩
  · have r := h.unsigned_range hu
    exact ⟨2, by decide, by decide, by simp [Types.classes]; omega⟩
  · rcases hr with hr | hr | hr | hr | hr | hr
    · exact ⟨3, by decide, by decide, by simp [Types.classes, hr]⟩
    · exact ⟨4, by decide, by decide, by simp [Types.classes, hr]⟩
    · exact ⟨5, by decide, by decide, by simp [Types.classes, hr]⟩
    · exact ⟨6, by decide, by decide, by simp [Types.classes, hr]⟩
    · exact ⟨8, by decide, by decide, by simp [Types.classes, hr]⟩
    · exact ⟨7, by decide, by decide, by simp [Types.classes, hr]⟩

theorem internalEncoder.renderedValue_float32 (E : Env) (h : E.types.Valid) (isJson : Bool)
    (val : Field) (hk : val.Type_ = E.types.TypeFloat32) :
    renderedValue E isJson val = some (E.formatFloat (strconv.toUint32 val.Integer) 32) := by
  obtain ⟨c0, c1, c2, -⟩ := h.conds 3 (by decide) val.Type_ (by simp [Types.classes, hk])
  unfold renderedValue appendValue
  rw [if_neg (c0 (by decide)),
    if_neg (by simpa [isValidRange] using c1 (by decide)),
    if_neg (by simpa [isValidRange] using c2 (by decide)), if_pos hk]
  rfl

theorem internalEncoder.renderedValue_float64 (E : Env) (h : E.types.Valid) (isJson : Bool)
    (val : Field) (hk : val.Type_ = E.types.TypeFloat64) :
    renderedValue E isJson val = some (E.formatFloat (strconv.toUint64 val.Integer) 64) := by
  obtain ⟨c0, c1, c2, c3, -⟩ := h.conds 4 (by decide) val.Type_ (by simp [Types.classes, hk])
  unfold renderedValue appendValue
  rw [if_neg (c0 (by decide)),
    if_neg (by simpa [isValidRange] using c1 (by decide)),
    if_neg (by simpa [isValidRange] using c2 (by decide)), if_neg (c3 (by decide)), if_pos hk]
  rfl

theorem internalEncoder.renderedValue_null (E : Env) (h : E.types.Valid) (isJson : Bool)
    (val : Field) (hk : val.Type_ = E.types.TypeNull) :
    renderedValue E isJson val = some val.String := by
  obtain ⟨c0, c1, c2, c3, c4, c5, c6, -⟩ :=
    h.conds 7 (by decide) val.Type_ (by simp [Types.classes, hk])
  unfold renderedValue appendValue
  rw [if_neg (c0 (by decide)),
    if_neg (by simpa [isValidRange] using c1 (by decide)),
    if_neg (by simpa [isValidRange] using c2 (by decide)), if_neg (c3 (by decide)),
    if_neg (c4 (by decide)), if_neg (c5 (by decide)), if_neg (c6 (by decide)), if_pos hk]
  rfl

theorem lineLayout_dst (dst message : Bytes) (items : List Bytes) :
    lineLayout dst message items = dst ++ lineLayout [] message items := by
  simp [lineLayout, List.append_assoc]

theorem jsonLayout_dst (dst messageKey message fieldsKey : Bytes) (items : List Bytes) :
    jsonLayout dst messageKey message fieldsKey items
      = dst ++ jsonLayout [] messageKey message fieldsKey items := by
  simp [jsonLayout, List.append_assoc]

theorem internalEncoder.lineLoop_append (E : Env) (xs ys : List Field) : ∀ dst : Bytes,
    lineLoop E dst (xs ++ ys) = (lineLoop E dst xs).bind (fun d => lineLoop E d ys) := by
  induction xs with
  | nil => intro dst; simp [lineLoop]
  | cons v rest ih =>
    intro dst
    simp only [List.cons_append, lineLoop]
    cases appendFieldValue E false dst v with
    | none => rfl
    | some d => exact ih _

theorem encoder.lineLoop_append_legacy (E : Env) (xs ys : List Field) : ∀ dst : Bytes,
    lineLoop E dst (xs ++ ys) = lineLoop E (lineLoop E dst xs) ys := by
  induction xs with
  | nil => intro dst; rfl
  | cons v rest ih =>
    intro dst
    simp only [List.cons_append, lineLoop]
    exact ih _

theorem encoder.lineItem_clearAffixes (E : Env) (val : Field) :
    lineItem E val.clearAffixes = lineItem E val := rfl

/-! ## Lemmas: the logger -/

theorem logger.foldl_set_isSome {V : Type} (g : Nat → V) (val : List Nat) (k : Nat) :
    ∀ m : Nat → Option V, (m k).isSome = true →
      ((val.foldl (fun m item => GoMap.set m item (g item)) m) k).isSome = true := by
  induction val with
  | nil => intro m h; exact h
  | cons item rest ih =>
    intro m h
    simp only [List.foldl_cons]
    apply ih
    simp only [GoMap.set]
    split
    · rfl
    · exact h

theorem logger.foldl_set_mem {V : Type} (g : Nat → V) (val : List Nat) (k : Nat)
    (hk : k ∈ val) : ∀ m : Nat → Option V,
      ((val.foldl (fun m item => GoMap.set m item (g item)) m) k).isSome = true := by
  induction val with
  | nil => simp at hk
  | cons item rest ih =>
    intro m
    simp only [List.foldl_cons]
    rcases List.mem_cons.1 hk with h | h
    · apply foldl_set_isSome
      simp [GoMap.set, h]
    · exact ih h _

theorem logger.SetLevel_keeps (belog : beLog) (val : List Nat) (k : Nat)
    (h : (belog.level.get k).isSome = true) : ((SetLevel belog val).level.get k).isSome = true := by
  cases hl : belog.level with
  | none => rw [hl] at h; simp [GoMap.get] at h
  | some m =>
    rw [hl] at h
    simp only [SetLevel, hl, GoMap.get]
    exact foldl_set_isSome levelMap val k m h

theorem logger.SetLevel_inserts (belog : beLog) (val : List Nat) (k : Nat) (hk : k ∈ val) :
    ((SetLevel belog val).level.get k).isSome = true := by
  simp only [SetLevel, GoMap.get]
  exact foldl_set_mem levelMap val k hk _

theorem logger.apply_keeps (belog : beLog) (call : Setter) (k : Nat)
    (h : (belog.level.get k).isSome = true) :
    ((Setter.apply belog call).level.get k).isSome = true := by
  cases call with
  | setLevel val => exact SetLevel_keeps belog val k h
  | setEngine val => exact h
  | openSplitDay => exact h
  | openFileLine => exact h
  | setMaxSize n => exact h
  | setSaveDay n => exact h
  | setSkip n => exact h

theorem logger.configure_keeps (calls : List Setter) (k : Nat) : ∀ belog : beLog,
    (belog.level.get k).isSome = true → ((configure belog calls).level.get k).isSome = true := by
  induction calls with
  | nil => intro belog h; exact h
  | cons call rest ih =>
    intro belog h
    exact ih _ (apply_keeps belog call k h)

theorem logger.levelMethod_isSome (level : Nat) (belog : beLog) (logStr : Bytes)
    (h : (belog.level.get level).isSome = true) :
    (levelMethod level belog logStr).isSome = true := by
  unfold levelMethod
  cases hg : belog.level.get level with
  | none => rw [hg] at h; simp at h
  | some c => rfl

theorem logger.New_levels (k : Nat) (h1 : 1 ≤ k) (h6 : k ≤ 6) :
    (New.level.get k).isSome = true := by
  have hk : k = 1 ∨ k = 2 ∨ k = 3 ∨ k = 4 ∨ k = 5 ∨ k = 6 := by omega
  rcases hk with h | h | h | h | h | h <;> subst h <;> decide

theorem readDigits_zeros (n : Nat) (ds : Bytes) :
    readDigits (List.replicate n 48 ++ ds) = readDigits ds := by
  induction n with
  | zero => rfl
  | succ m ih =>
    have e : readDigits (48 :: (List.replicate m 48 ++ ds))
        = readDigits (List.replicate m 48 ++ ds) := by
      simp only [readDigits, List.foldl_cons]
      rfl
    rw [List.replicate_succ, List.cons_append, e, ih]

theorem strconv.formatBits_length_le_three (u : Nat) (h : u < 1000) :
    (formatBits u false).length ≤ 3 := by
  rw [formatBits_unfold]
  split
  · simp
  · rw [formatBits_unfold (u / 10)]
    split
    · simp
    · rw [formatBits_unfold (u / 10 / 10), if_pos (by omega)]
      simp

theorem time.UnixMilli_eq (t : time.Time) (h0 : -2 ^ 63 ≤ t.sec * 1000)
    (h1 : t.sec * 1000 + (t.nsec / 1000000 : Nat) < 2 ^ 63) :
    t.UnixMilli = 1000 * t.sec + (t.nsec / 1000000 : Nat) := by
  simp only [Time.UnixMilli, strconv.wrapInt64, strconv.toInt64, strconv.toUint64]
  split <;> omega

theorem logger.foldl_set_not_mem {V : Type} (g : Nat → V) (val : List Nat) (k : Nat)
    (hk : k ∉ val) : ∀ m : Nat → Option V,
      (val.foldl (fun m item => GoMap.set m item (g item)) m) k = m k := by
  induction val with
  | nil => intro m; rfl
  | cons item rest ih =>
    intro m
    simp only [List.foldl_cons]
    rw [ih (fun h => hk (List.mem_cons_of_mem _ h))]
    have hne : k ≠ item := fun h => hk (h ▸ List.mem_cons_self _ _)
    simp [GoMap.set, hne]

theorem logger.SetLevel_others (belog : beLog) (val : List Nat) (k : Nat) (hk : k ∉ val) :
    (SetLevel belog val).level.get k = belog.level.get k := by
  cases hl : belog.level with
  | none =>
    simp only [SetLevel, hl, GoMap.get]
    exact foldl_set_not_mem levelMap val k hk _
  | some m =>
    simp only [SetLevel, hl, GoMap.get]
    exact foldl_set_not_mem levelMap val k hk m

theorem logger.tmod_millis (s ms : Int) (h : 1000 ≤ s) (h0 : 0 ≤ ms) (h1 : ms ≤ 999) :
    Int.tmod (1000 * s + ms) s = ms := by
  rw [Int.tmod_eq_emod (by omega) (by omega), Int.add_comm, Int.add_mul_emod_self]
  exact Int.emod_eq_of_lt h0 (by omega)

/-! ## The claims -/

/-- C1. Line format layout: `AppendFieldAndMsg` returns the buffer, then for
each field in order `key: value, ` (the separator also after the last field),
then the message verbatim.  For `internal/encoder` the items are those of the
fields whose value renders, and there is a result exactly when every value
renders; for `encoder` every value renders. -/
theorem line_layout (E : Env) (dst message : Bytes) (val : List Field) :
    internalEncoder.AppendFieldAndMsg E dst message val
        = (sequence (val.map (internalEncoder.lineItem E))).map (lineLayout dst message)
      ∧ encoder.AppendFieldAndMsg E dst message val
        = lineLayout dst message (val.map (encoder.lineItem E)) :=
  ⟨internalEncoder.AppendFieldAndMsg_eq E dst message val,
    encoder.AppendFieldAndMsg_layout E dst message val⟩

/-- C2. JSON format layout: `AppendFieldAndMsgJSON` returns the buffer, then
`"fieldsKey": {`, the items `"key": value` joined by `, `, then `}, ` and
`"messageKey": "message"`.  The index loop of `internal/encoder` and the flag
loop of `encoder` give the same layout, and joining `n` items puts `n - 1`
separators between them, none for `n = 0`. -/
theorem json_layout (E : Env) (dst messageKey message fieldsKey : Bytes) (val : List Field) :
    internalEncoder.AppendFieldAndMsgJSON E dst messageKey message fieldsKey val
        = (sequence (val.map (internalEncoder.jsonItem E))).map
            (jsonLayout dst messageKey message fieldsKey)
      ∧ encoder.AppendFieldAndMsgJSON E dst messageKey message fieldsKey val
        = jsonLayout dst messageKey message fieldsKey (val.map (encoder.jsonItem E))
      ∧ ∀ items : List Bytes,
          List.intercalate (lit ", ") items = (List.intersperse (lit ", ") items).flatten
          ∧ (List.intersperse (lit ", ") items).length = items.length + (items.length - 1) :=
  ⟨internalEncoder.AppendFieldAndMsgJSON_eq E dst messageKey message fieldsKey val,
    encoder.AppendFieldAndMsgJSON_layout E dst messageKey message fieldsKey val,
    fun items => ⟨rfl, intersperse_length (lit ", ") items⟩⟩

/-- C3. Worked example: a signed-integer field `count` of value 3 (of any of
the four signed kinds) and a string field `user` of text `alice`, with the
message `login ok` and an empty buffer, give the line
`count: 3, user: alice, login ok` and, with the keys `fields` and `msg`, the JSON
text `"fields": {"count": 3, "user": "alice"}, "msg": "login ok"`. -/
theorem worked_example (E : Env) (h : E.types.Valid) (k : Nat) (hk : k ∈ E.types.signedKinds) :
    internalEncoder.AppendFieldAndMsg E [] (lit "login ok")
        [{ Key := lit "count", Type_ := k, Integer := 3 },
         { Key := lit "user", Type_ := E.types.TypeString, String := lit "alice" }]
        = some (lit "count: 3, user: alice, login ok")
      ∧ internalEncoder.AppendFieldAndMsgJSON E [] (lit "msg") (lit "login ok") (lit "fields")
        [{ Key := lit "count", Type_ := k, Integer := 3 },
         { Key := lit "user", Type_ := E.types.TypeString, String := lit "alice" }]
        = some (lit "\"fields\": \x7b\"count\": 3, \"user\": \"alice\"\x7d, \"msg\": \"login ok\"") := by
  have hs : ∀ isJson, internalEncoder.renderedValue E isJson
      { Key := lit "count", Type_ := k, Integer := 3 } = some (lit "3") := by
    intro isJson
    rw [internalEncoder.renderedValue_signed E h isJson _ (h.signed_range hk)]
    rfl
  have ht : ∀ isJson, internalEncoder.renderedValue E isJson
      { Key := lit "user", Type_ := E.types.TypeString, String := lit "alice" }
      = some (if isJson then [34] ++ lit "alice" ++ [34] else lit "alice") := by
    intro isJson
    rw [internalEncoder.renderedValue_string E h isJson _ (h.string_range (Or.inl rfl))]
  constructor
  · rw [internalEncoder.AppendFieldAndMsg_eq]
    simp only [List.map_cons, List.map_nil, internalEncoder.lineItem, hs, ht, Option.map_some',
      sequence]
    decide
  · rw [internalEncoder.AppendFieldAndMsgJSON_eq]
    simp only [List.map_cons, List.map_nil, internalEncoder.jsonItem, hs, ht, Option.map_some',
      sequence]
    decide

/-- Witness of C3: the example with the 64-bit signed kind of the example table. -/
theorem worked_example_witness :
    exampleEnv.types.Valid ∧ exampleEnv.types.TypeInt64 ∈ exampleEnv.types.signedKinds
      ∧ internalEncoder.AppendFieldAndMsg exampleEnv [] (lit "login ok")
        [{ Key := lit "count", Type_ := exampleEnv.types.TypeInt64, Integer := 3 },
         { Key := lit "user", Type_ := exampleEnv.types.TypeString, String := lit "alice" }]
        = some (lit "count: 3, user: alice, login ok")
      ∧ internalEncoder.AppendFieldAndMsgJSON exampleEnv [] (lit "msg") (lit "login ok")
        (lit "fields")
        [{ Key := lit "count", Type_ := exampleEnv.types.TypeInt64, Integer := 3 },
         { Key := lit "user", Type_ := exampleEnv.types.TypeString, String := lit "alice" }]
        = some (lit "\"fields\": \x7b\"count\": 3, \"user\": \"alice\"\x7d, \"msg\": \"login ok\"") :=
  ⟨by decide, by decide,
    worked_example exampleEnv (by decide) exampleEnv.types.TypeInt64 (by decide)⟩

/-- C4. Empty field sequence: into an empty buffer the line encoders return
exactly the message and the JSON encoders return `"fieldsKey": {}, "messageKey": "message"`,
the braces empty but present; for the message `tick` and the keys `fields` and
`msg` these are `tick` and `"fields": {}, "msg": "tick"`. -/
theorem empty_fields (E : Env) (message messageKey fieldsKey : Bytes) :
    internalEncoder.AppendFieldAndMsg E [] message [] = some message
      ∧ encoder.AppendFieldAndMsg E [] message [] = message
      ∧ internalEncoder.AppendFieldAndMsgJSON E [] messageKey message fieldsKey []
        = some ([34] ++ fieldsKey ++ lit "\": \x7b\x7d, \"" ++ messageKey ++ lit "\": \""
            ++ message ++ [34])
      ∧ encoder.AppendFieldAndMsgJSON E [] messageKey message fieldsKey []
        = [34] ++ fieldsKey ++ lit "\": \x7b\x7d, \"" ++ messageKey ++ lit "\": \""
            ++ message ++ [34]
      ∧ internalEncoder.AppendFieldAndMsg E [] (lit "tick") [] = some (lit "tick")
      ∧ encoder.AppendFieldAndMsg E [] (lit "tick") [] = lit "tick"
      ∧ internalEncoder.AppendFieldAndMsgJSON E [] (lit "msg") (lit "tick") (lit "fields") []
        = some (lit "\"fields\": \x7b\x7d, \"msg\": \"tick\"")
      ∧ encoder.AppendFieldAndMsgJSON E [] (lit "msg") (lit "tick") (lit "fields") []
        = lit "\"fields\": \x7b\x7d, \"msg\": \"tick\"" := by
  have hl : lit "\": \x7b\x7d, \"" = lit "\": \x7b" ++ lit "\x7d, " ++ [34] := by decide
  refine ⟨rfl, rfl, ?_, ?_, rfl, rfl, rfl, rfl⟩
  · simp [internalEncoder.AppendFieldAndMsgJSON, internalEncoder.jsonLoop, convert.StringToBytes,
      hl, List.append_assoc]
  · simp [encoder.AppendFieldAndMsgJSON, encoder.jsonLoop, convert.StringToBytes, hl,
      List.append_assoc]

/-- C5. String and error kinds: the value of a field of string kind or of error
kind is its text as it is in line mode and its text between two double quotes
in JSON mode, the bytes between the quotes being those of line mode: nothing is
escaped in either mode. -/
theorem string_rendering (E : Env) (h : E.types.Valid) (val : Field)
    (hk : val.Type_ = E.types.TypeString ∨ val.Type_ = E.types.TypeError) :
    internalEncoder.renderedValue E false val = some val.String
      ∧ internalEncoder.renderedValue E true val = some ([34] ++ val.String ++ [34])
      ∧ internalEncoder.appendFieldValue E false [] val = some (val.Key ++ lit ": " ++ val.String)
      ∧ internalEncoder.appendFieldValue E true [] val
        = some ([34] ++ val.Key ++ lit "\": " ++ ([34] ++ val.String ++ [34])) := by
  have hf := internalEncoder.renderedValue_string E h false val (h.string_range hk)
  have ht := internalEncoder.renderedValue_string E h true val (h.string_range hk)
  simp only [Bool.false_eq_true, if_false, if_true] at hf ht
  refine ⟨hf, ht, ?_, ?_⟩
  · rw [internalEncoder.appendFieldValue_line, hf]
    simp
  · rw [internalEncoder.appendFieldValue_json, ht]
    simp

/-- Witness of C5: an error field whose text holds a double quote and a backslash. -/
theorem string_rendering_witness :
    exampleEnv.types.Valid
      ∧ internalEncoder.renderedValue exampleEnv false
          { Key := lit "err", Type_ := exampleTypes.TypeError, String := lit "a\"b\\c" }
        = some (lit "a\"b\\c")
      ∧ internalEncoder.renderedValue exampleEnv true
          { Key := lit "err", Type_ := exampleTypes.TypeError, String := lit "a\"b\\c" }
        = some ([34] ++ lit "a\"b\\c" ++ [34]) :=
  ⟨by decide,
    (string_rendering exampleEnv (by decide)
      { Key := lit "err", Type_ := exampleTypes.TypeError, String := lit "a\"b\\c" }
      (Or.inr rfl)).1,
    (string_rendering exampleEnv (by decide)
      { Key := lit "err", Type_ := exampleTypes.TypeError, String := lit "a\"b\\c" }
      (Or.inr rfl)).2.1⟩

/-- C6. Integer rendering: for a field of a signed-integer kind (8, 16, 32 or
64 bit) whose `Integer` cell holds `v`, both encoders render the canonical
decimal string of `v` (no leading zero, a minus sign only for `v < 0`), which
parses back to `v`; for a field of an unsigned-integer kind whose cell holds the
bit pattern of `x < 2^64` (also for `x >= 2^63`), both render the canonical
decimal string of `x`, which parses back to `x`. -/
theorem integer_rendering (E : Env) (h : E.types.Valid) (isJson : Bool) (val : Field) :
    (∀ v : Int, -2 ^ 63 ≤ v → v < 2 ^ 63 → val.Integer = v →
        (val.Type_ ∈ E.types.signedKinds →
          ∃ s, internalEncoder.renderedValue E isJson val = some s
            ∧ isCanonicalDecimal s v = true ∧ parseDecimal s = some v)
        ∧ (val.ValType ∈ E.types.signedKinds →
          isCanonicalDecimal (encoder.appendFieldValue E [] val) v = true
            ∧ parseDecimal (encoder.appendFieldValue E [] val) = some v))
      ∧ (∀ x : Nat, x < 2 ^ 64 → val.Integer = strconv.toInt64 x →
        (val.Type_ ∈ E.types.unsignedKinds →
          ∃ s, internalEncoder.renderedValue E isJson val = some s
            ∧ isCanonicalDecimal s (x : Int) = true ∧ parseDecimal s = some (x : Int))
        ∧ (val.ValType ∈ E.types.unsignedKinds →
          isCanonicalDecimal (encoder.appendFieldValue E [] val) (x : Int) = true
            ∧ parseDecimal (encoder.appendFieldValue E [] val) = some (x : Int))) := by
  constructor
  · intro v h0 h1 hv
    have hc := strconv.AppendInt_canonical v h0 h1
    constructor
    · intro hk
      refine ⟨strconv.AppendInt [] v, ?_, hc⟩
      rw [internalEncoder.renderedValue_signed E h isJson val (h.signed_range hk), hv]
    · intro hk
      rw [encoder.appendFieldValue_signed E h val hk, hv]
      exact hc
  · intro x hx hv
    have hc := strconv.AppendUint_canonical x
    constructor
    · intro hk
      refine ⟨strconv.AppendUint [] x, ?_, hc⟩
      rw [internalEncoder.renderedValue_unsigned E h isJson val (h.unsigned_range hk), hv,
        strconv.toUint64_toInt64 x hx]
    · intro hk
      rw [encoder.appendFieldValue_unsigned E h val hk, hv, strconv.toUint64_toInt64 x hx]
      exact hc

/-- Witness of C6: the 64-bit unsigned value `2^64 - 1`, stored as the bit
pattern `-1`, and the 64-bit signed value `-2^63`. -/
theorem integer_rendering_witness :
    exampleEnv.types.Valid
      ∧ (∃ s, internalEncoder.renderedValue exampleEnv false
            { Key := lit "n", Type_ := exampleTypes.TypeUint64, Integer := -1 } = some s
          ∧ isCanonicalDecimal s ((18446744073709551615 : Nat) : Int) = true
          ∧ parseDecimal s = some ((18446744073709551615 : Nat) : Int))
      ∧ (∃ s, internalEncoder.renderedValue exampleEnv false
            { Key := lit "n", Type_ := exampleTypes.TypeInt64, Integer := -9223372036854775808 }
              = some s
          ∧ isCanonicalDecimal s (-9223372036854775808) = true
          ∧ parseDecimal s = some (-9223372036854775808)) :=
  ⟨by decide,
    ((integer_rendering exampleEnv (by decide) false
      { Key := lit "n", Type_ := exampleTypes.TypeUint64, Integer := -1 }).2
        18446744073709551615 (by decide) (by decide)).1 (by decide),
    ((integer_rendering exampleEnv (by decide) false
      { Key := lit "n", Type_ := exampleTypes.TypeInt64, Integer := -9223372036854775808 }).1
        (-9223372036854775808) (by decide) (by decide) rfl).1 (by decide)⟩

/-- C7, counterexample. A field of kind `Complex128` whose `Interface` holds
nothing makes the line encoder panic, a field of kind `Objecter` whose
`Interface` holds a value of another type makes the JSON encoder panic, and so
does a field of kind `Objecter` whose `ToJSON()` panics: none of the calls
returns a buffer. -/
theorem totality_counterexample :
    internalEncoder.AppendFieldAndMsg exampleEnv [] (lit "m")
        [{ Key := lit "c", Type_ := exampleTypes.TypeComplex128 }] = none
      ∧ internalEncoder.AppendFieldAndMsgJSON exampleEnv [] (lit "msg") (lit "m") (lit "fields")
        [{ Key := lit "o", Type_ := exampleTypes.TypeObjecter, Interface := Iface.other 0 }]
          = none
      ∧ internalEncoder.AppendFieldAndMsgJSON exampleEnv [] (lit "msg") (lit "m") (lit "fields")
        [{ Key := lit "o", Type_ := exampleTypes.TypeObjecter,
           Interface := Iface.objecter { ToJSON := none, ToString := some (lit "x") } }]
          = none := by
  decide

/-- C7, amended. Each encoder of `internal/encoder` returns a buffer for every
buffer, message and field sequence in which the payload of each field matches
its kind for the format of the encoder: a complex number of the width of a
complex kind, and for the object kind an `Objecter` whose method for the format
returns.  The kind tag itself may be any number: a field whose tag matches no
case of the `switch` meets the condition with any payload and its value renders
as empty. -/
theorem totality (E : Env) (dst message messageKey fieldsKey : Bytes) (val : List Field) :
    ((∀ f ∈ val, payloadMatches E false f = true) →
        (internalEncoder.AppendFieldAndMsg E dst message val).isSome = true)
      ∧ ((∀ f ∈ val, payloadMatches E true f = true) →
        (internalEncoder.AppendFieldAndMsgJSON E dst messageKey message fieldsKey val).isSome
          = true)
      ∧ (∀ (f : Field) (isJson : Bool), internalEncoder.unhandled E f.Type_ = true →
          payloadMatches E isJson f = true
            ∧ internalEncoder.renderedValue E isJson f = some []) := by
  refine ⟨?_, ?_, ?_⟩
  · intro h
    rw [internalEncoder.AppendFieldAndMsg_eq]
    apply isSome_map_of
    apply sequence_isSome
    intro x hx
    obtain ⟨f, hf, rfl⟩ := List.mem_map.1 hx
    exact isSome_map_of _ _ (internalEncoder.renderedValue_isSome E false f (h f hf))
  · intro h
    rw [internalEncoder.AppendFieldAndMsgJSON_eq]
    apply isSome_map_of
    apply sequence_isSome
    intro x hx
    obtain ⟨f, hf, rfl⟩ := List.mem_map.1 hx
    exact isSome_map_of _ _ (internalEncoder.renderedValue_isSome E true f (h f hf))
  · intro f isJson hk
    exact ⟨payloadMatches_of_unhandled E isJson f hk,
      internalEncoder.renderedValue_of_unhandled E isJson f hk⟩

/-- Witness of C7: a field of an unknown kind with a payload of an unknown type,
next to an object field whose `ToJSON()` returns and whose `ToString()` panics,
in JSON mode. -/
theorem totality_witness :
    (∀ f ∈ [({ Key := lit "x", Type_ := 99, Interface := Iface.other 7 } : Field),
            { Key := lit "o", Type_ := exampleTypes.TypeObjecter,
              Interface := Iface.objecter { ToJSON := some (lit "[1]"), ToString := none } }],
        payloadMatches exampleEnv true f = true)
      ∧ (internalEncoder.AppendFieldAndMsgJSON exampleEnv (lit ">") (lit "msg") (lit "m")
          (lit "fields")
          [{ Key := lit "x", Type_ := 99, Interface := Iface.other 7 },
           { Key := lit "o", Type_ := exampleTypes.TypeObjecter,
             Interface := Iface.objecter { ToJSON := some (lit "[1]"), ToString := none } }]).isSome
          = true
      ∧ internalEncoder.unhandled exampleEnv 99 = true
      ∧ internalEncoder.renderedValue exampleEnv true
          { Key := lit "x", Type_ := 99, Interface := Iface.other 7 } = some [] :=
  ⟨by decide,
    (totality exampleEnv (lit ">") (lit "m") (lit "msg") (lit "fields") _).2.1 (by decide),
    by decide,
    ((totality exampleEnv (lit ">") (lit "m") (lit "msg") (lit "fields") []).2.2
      { Key := lit "x", Type_ := 99, Interface := Iface.other 7 } true (by decide)).2⟩

/-- C8. What the code does with a duration: no case of the `switch` names the
kind `Duration`, so for a valid tag table the field built by `Duration(key, d)`
renders with an empty value, `key: , ` in line mode and `"key": ` in JSON mode,
whatever the duration `d` is. -/
theorem duration_rendering (E : Env) (h : E.types.Valid) (key message : Bytes) (d : Int) :
    internalEncoder.renderedValue E false (field.Duration E.types key d) = some []
      ∧ internalEncoder.renderedValue E true (field.Duration E.types key d) = some []
      ∧ internalEncoder.AppendFieldAndMsg E [] message [field.Duration E.types key d]
        = some (key ++ lit ": " ++ lit ", " ++ message)
      ∧ internalEncoder.jsonItem E (field.Duration E.types key d)
        = some ([34] ++ key ++ lit "\": ") := by
  have hv : ∀ isJson, internalEncoder.renderedValue E isJson (field.Duration E.types key d)
      = some [] :=
    fun isJson => internalEncoder.renderedValue_unhandled E h isJson _ (Or.inl rfl)
  refine ⟨hv false, hv true, ?_, ?_⟩
  · rw [internalEncoder.AppendFieldAndMsg_eq]
    simp only [List.map_cons, List.map_nil, internalEncoder.lineItem, hv, Option.map_some',
      sequence, lineLayout]
    simp [field.Duration]
  · simp only [internalEncoder.jsonItem, hv, Option.map_some']
    simp [field.Duration]

/-- Witness of C8: the duration of 3723 seconds, whose compact duration string
is `1h2m3s`, renders as `took: , done`. -/
theorem duration_rendering_witness :
    exampleEnv.types.Valid
      ∧ internalEncoder.AppendFieldAndMsg exampleEnv [] (lit "done")
          [field.Duration exampleEnv.types (lit "took") 3723000000000]
        = some (lit "took: , done") :=
  ⟨by decide,
    (duration_rendering exampleEnv (by decide) (lit "took") (lit "done") 3723000000000).2.2.1⟩

/-- C9, counterexample. An object field with the prefix `[` and the suffix `]`
whose `ToJSON` gives `1,2`: the JSON encoder of `internal/encoder` emits `1,2`
right after the quoted key, without the prefix and the suffix. -/
theorem object_prefix_counterexample :
    internalEncoder.AppendFieldAndMsgJSON exampleEnv [] (lit "msg") (lit "m") (lit "fields")
        [{ Key := lit "o", Type_ := exampleTypes.TypeObjecter,
           Interface := Iface.objecter
             { ToJSON := some (lit "1,2"), ToString := some (lit "1 2") },
           Prefix := lit "[", Suffix := lit "]" }]
        = some (lit "\"fields\": \x7b\"o\": 1,2\x7d, \"msg\": \"m\"")
      ∧ internalEncoder.AppendFieldAndMsgJSON exampleEnv [] (lit "msg") (lit "m") (lit "fields")
        [{ Key := lit "o", Type_ := exampleTypes.TypeObjecter,
           Interface := Iface.objecter
             { ToJSON := some (lit "1,2"), ToString := some (lit "1 2") },
           Prefix := lit "[", Suffix := lit "]" }]
        ≠ some (lit "\"fields\": \x7b\"o\": [1,2]\x7d, \"msg\": \"m\"") := by
  decide

/-- C9, amended. For an object field whose payload implements `Objecter`, the
JSON encoder of `internal/encoder` emits, after the quoted key, exactly the
bytes `ToJSON()` returns, and the line encoder emits, after the key, exactly the
bytes `ToString()` returns; neither emits the prefix or the suffix of the
field. -/
theorem object_rendering (E : Env) (h : E.types.Valid) (val : Field) (o : Objecter)
    (hk : val.Type_ = E.types.TypeObjecter) (hp : val.Interface = Iface.objecter o) :
    (∀ json : Bytes, o.ToJSON = some json →
        internalEncoder.appendFieldValue E true [] val
            = some ([34] ++ val.Key ++ lit "\": " ++ json)
          ∧ internalEncoder.AppendFieldAndMsgJSON E [] (lit "msg") [] (lit "fields") [val]
            = some (lit "\"fields\": \x7b" ++ ([34] ++ val.Key ++ lit "\": " ++ json)
                ++ lit "\x7d, \"msg\": \"\""))
      ∧ (∀ text : Bytes, o.ToString = some text →
        internalEncoder.appendFieldValue E false [] val = some (val.Key ++ lit ": " ++ text)
          ∧ internalEncoder.AppendFieldAndMsg E [] [] [val]
            = some (val.Key ++ lit ": " ++ text ++ lit ", ")) := by
  have hv : ∀ isJson, internalEncoder.renderedValue E isJson val
      = (if isJson then o.ToJSON else o.ToString) := by
    intro isJson
    rw [internalEncoder.renderedValue_objecter E h isJson val hk, hp]
    rfl
  have l1 : lit "\"fields\": \x7b" = [34] ++ lit "fields" ++ lit "\": \x7b" := by decide
  have l2 : lit "\x7d, \"msg\": \"\"" = lit "\x7d, " ++ [34] ++ lit "msg" ++ lit "\": \"" ++ [34] := by
    decide
  constructor
  · intro json hj
    have hvt : internalEncoder.renderedValue E true val = some json := by rw [hv, ← hj]; rfl
    constructor
    · rw [internalEncoder.appendFieldValue_json, hvt]
      simp
    · rw [internalEncoder.AppendFieldAndMsgJSON_eq]
      simp [internalEncoder.jsonItem, hvt, sequence, jsonLayout, List.intercalate, l1, l2,
        List.append_assoc]
  · intro text ht
    have hvf : internalEncoder.renderedValue E false val = some text := by rw [hv, ← ht]; rfl
    constructor
    · rw [internalEncoder.appendFieldValue_line, hvf]
      simp
    · rw [internalEncoder.AppendFieldAndMsg_eq]
      simp [internalEncoder.lineItem, hvf, sequence, lineLayout]

/-- Witness of C9: the object field of the counterexample. -/
theorem object_rendering_witness :
    exampleEnv.types.Valid
      ∧ internalEncoder.appendFieldValue exampleEnv true []
          { Key := lit "o", Type_ := exampleTypes.TypeObjecter,
            Interface := Iface.objecter
              { ToJSON := some (lit "1,2"), ToString := some (lit "1 2") },
            Prefix := lit "[", Suffix := lit "]" }
        = some (lit "\"o\": 1,2")
      ∧ internalEncoder.appendFieldValue exampleEnv false []
          { Key := lit "o", Type_ := exampleTypes.TypeObjecter,
            Interface := Iface.objecter
              { ToJSON := some (lit "1,2"), ToString := some (lit "1 2") },
            Prefix := lit "[", Suffix := lit "]" }
        = some (lit "o: 1 2") :=
  ⟨by decide,
    ((object_rendering exampleEnv (by decide)
      { Key := lit "o", Type_ := exampleTypes.TypeObjecter,
        Interface := Iface.objecter { ToJSON := some (lit "1,2"), ToString := some (lit "1 2") },
        Prefix := lit "[", Suffix := lit "]" }
      { ToJSON := some (lit "1,2"), ToString := some (lit "1 2") } rfl rfl).1
        (lit "1,2") rfl).1,
    ((object_rendering exampleEnv (by decide)
      { Key := lit "o", Type_ := exampleTypes.TypeObjecter,
        Interface := Iface.objecter { ToJSON := some (lit "1,2"), ToString := some (lit "1 2") },
        Prefix := lit "[", Suffix := lit "]" }
      { ToJSON := some (lit "1,2"), ToString := some (lit "1 2") } rfl rfl).2
        (lit "1 2") rfl).1⟩

/-- C10, counterexample. A time stamp built with the format string `""` is
the same field as one built with no format string, so JSON mode renders it as
the bare number of microseconds and not as a quoted formatted string. -/
theorem timestamp_format_counterexample :
    field.Time exampleTypes (lit "t") { sec := 1, nsec := 500000 } [lit ""]
        = field.Time exampleTypes (lit "t") { sec := 1, nsec := 500000 } []
      ∧ internalEncoder.renderedValue exampleEnv true
          (field.Time exampleTypes (lit "t") { sec := 1, nsec := 500000 } [lit ""])
        = some (lit "1000500") := by
  decide

/-- C10, amended. A time stamp built by `Time(key, t)` with no format string
renders in JSON mode as the bare decimal number of its microseconds since the
epoch and in line mode as the default formatted representation; built with a
format string that is not empty, it renders in JSON mode as the formatted
string between double quotes. -/
theorem timestamp_rendering (E : Env) (key : Bytes) (t : time.Time) :
    (internalEncoder.renderedValue E true (field.Time E.types key t [])
          = some (strconv.AppendInt [] t.UnixMicro)
        ∧ isCanonicalDecimal (strconv.AppendInt [] t.UnixMicro) t.UnixMicro = true)
      ∧ internalEncoder.renderedValue E false (field.Time E.types key t [])
          = some (E.formatTime (time.UnixMicro t.UnixMicro) E.defaultLayout)
      ∧ ∀ (fmt : Bytes) (rest : List Bytes), fmt ≠ [] →
          internalEncoder.renderedValue E true (field.Time E.types key t (fmt :: rest))
            = some ([34] ++ E.formatTime (time.UnixMicro t.UnixMicro) fmt ++ [34]) := by
  have hr := strconv.wrapInt64_range (t.sec * 1000000 + (t.nsec / 1000 : Nat))
  have hrange : -2 ^ 63 ≤ t.UnixMicro ∧ t.UnixMicro < 2 ^ 63 := hr
  have hrt := time.UnixMicro_roundtrip t.UnixMicro hrange.1 hrange.2
  refine ⟨⟨?_, (strconv.AppendInt_canonical t.UnixMicro hrange.1 hrange.2).1⟩, ?_, ?_⟩
  · rw [internalEncoder.renderedValue_time E true _ rfl]
    simp [field.Time, internalEncoder.appendTime, hrt]
  · rw [internalEncoder.renderedValue_time E false _ rfl]
    simp [field.Time, internalEncoder.appendTime]
  · intro fmt rest hne
    rw [internalEncoder.renderedValue_time E true _ rfl]
    simp [field.Time, internalEncoder.appendTime, hne]

/-- Witness of C10: a time stamp with the format string `2006-01-02`. -/
theorem timestamp_rendering_witness :
    lit "2006-01-02" ≠ []
      ∧ internalEncoder.renderedValue exampleEnv true
          (field.Time exampleEnv.types (lit "t") { sec := 1, nsec := 500000 } [lit "2006-01-02"])
        = some ([34] ++ exampleEnv.formatTime
            (time.UnixMicro (time.Time.UnixMicro { sec := 1, nsec := 500000 })) (lit "2006-01-02")
            ++ [34]) :=
  ⟨by decide,
    (timestamp_rendering exampleEnv (lit "t") { sec := 1, nsec := 500000 }).2.2
      (lit "2006-01-02") [] (by decide)⟩

/-- C11. Unknown or unhandled kinds: a field whose tag matches no case of the
`switch` renders with an empty value and keeps its key, `key: , ` in line mode
and `"key": ` in JSON mode, and between any other fields the output is laid out
as for any field; for a valid tag table the fields built by `Times` and
`Durations` are such fields. -/
theorem unhandled_rendering (E : Env) (val : Field)
    (hk : internalEncoder.unhandled E val.Type_ = true) :
    internalEncoder.lineItem E val = some (val.Key ++ lit ": " ++ lit ", ")
      ∧ internalEncoder.jsonItem E val = some ([34] ++ val.Key ++ lit "\": ")
      ∧ (∀ (dst message : Bytes) (pre post : List Field),
          internalEncoder.AppendFieldAndMsg E dst message (pre ++ val :: post)
            = (sequence (pre.map (internalEncoder.lineItem E)
                ++ some (val.Key ++ lit ": " ++ lit ", ")
                  :: post.map (internalEncoder.lineItem E))).map (lineLayout dst message))
      ∧ (∀ (dst messageKey message fieldsKey : Bytes) (pre post : List Field),
          internalEncoder.AppendFieldAndMsgJSON E dst messageKey message fieldsKey
              (pre ++ val :: post)
            = (sequence (pre.map (internalEncoder.jsonItem E)
                ++ some ([34] ++ val.Key ++ lit "\": ")
                  :: post.map (internalEncoder.jsonItem E))).map
                (jsonLayout dst messageKey message fieldsKey))
      ∧ (E.types.Valid → ∀ (key : Bytes) (ts : List time.Time) (ds : List Int)
          (format : List Bytes),
          internalEncoder.unhandled E (field.Times E.types key ts format).Type_ = true
            ∧ internalEncoder.unhandled E (field.Durations E.types key ds).Type_ = true) := by
  have hl : internalEncoder.lineItem E val = some (val.Key ++ lit ": " ++ lit ", ") := by
    simp [internalEncoder.lineItem, internalEncoder.renderedValue_of_unhandled E false val hk]
  have hj : internalEncoder.jsonItem E val = some ([34] ++ val.Key ++ lit "\": ") := by
    simp [internalEncoder.jsonItem, internalEncoder.renderedValue_of_unhandled E true val hk]
  refine ⟨hl, hj, ?_, ?_, ?_⟩
  · intro dst message pre post
    rw [internalEncoder.AppendFieldAndMsg_eq, List.map_append, List.map_cons, hl]
  · intro dst messageKey message fieldsKey pre post
    rw [internalEncoder.AppendFieldAndMsgJSON_eq, List.map_append, List.map_cons, hj]
  · intro hv key ts ds format
    exact ⟨internalEncoder.unhandled_of_valid E hv _ (Or.inr (Or.inl rfl)),
      internalEncoder.unhandled_of_valid E hv _ (Or.inr (Or.inr rfl))⟩

/-- Witness of C11: a field built by `Durations` between two string fields. -/
theorem unhandled_rendering_witness :
    internalEncoder.unhandled exampleEnv
        (field.Durations exampleTypes (lit "ds") [1, 2]).Type_ = true
      ∧ internalEncoder.AppendFieldAndMsg exampleEnv [] (lit "m")
          ([{ Key := lit "a", Type_ := exampleTypes.TypeString, String := lit "x" }]
            ++ field.Durations exampleTypes (lit "ds") [1, 2]
              :: [{ Key := lit "b", Type_ := exampleTypes.TypeString, String := lit "y" }])
        = some (lit "a: x, ds: , b: y, m")
      ∧ internalEncoder.AppendFieldAndMsgJSON exampleEnv [] (lit "msg") (lit "m") (lit "fields")
          ([{ Key := lit "a", Type_ := exampleTypes.TypeString, String := lit "x" }]
            ++ field.Durations exampleTypes (lit "ds") [1, 2]
              :: [{ Key := lit "b", Type_ := exampleTypes.TypeString, String := lit "y" }])
        = some (lit "\"fields\": \x7b\"a\": \"x\", \"ds\": , \"b\": \"y\"\x7d, \"msg\": \"m\"") :=
  ⟨by decide,
    ((unhandled_rendering exampleEnv (field.Durations exampleTypes (lit "ds") [1, 2])
      (by decide)).2.2.1 [] (lit "m")
      [{ Key := lit "a", Type_ := exampleTypes.TypeString, String := lit "x" }]
      [{ Key := lit "b", Type_ := exampleTypes.TypeString, String := lit "y" }]).trans
      (by decide),
    ((unhandled_rendering exampleEnv (field.Durations exampleTypes (lit "ds") [1, 2])
      (by decide)).2.2.2.1 [] (lit "msg") (lit "m") (lit "fields")
      [{ Key := lit "a", Type_ := exampleTypes.TypeString, String := lit "x" }]
      [{ Key := lit "b", Type_ := exampleTypes.TypeString, String := lit "y" }]).trans
      (by decide)⟩

/-- C12. Mode-independent value rendering: for a valid tag table and a field of
an integer, float, complex, boolean or null kind, the value rendered in JSON
mode is the value rendered in line mode, so the two outputs differ by the key
decoration only; a float is the text of the float formatter with no quote, and a
null field is its bare text payload in both modes. -/
theorem plain_value_mode_independent (E : Env) (h : E.types.Valid) (val : Field)
    (hk : val.Type_ ∈ E.types.plainKinds) :
    internalEncoder.renderedValue E true val = internalEncoder.renderedValue E false val
      ∧ internalEncoder.appendFieldValue E true [] val
        = (internalEncoder.renderedValue E false val).map
            (fun v => [34] ++ val.Key ++ lit "\": " ++ v)
      ∧ internalEncoder.appendFieldValue E false [] val
        = (internalEncoder.renderedValue E false val).map (fun v => val.Key ++ lit ": " ++ v)
      ∧ (val.Type_ = E.types.TypeFloat32 → ∀ isJson,
          internalEncoder.renderedValue E isJson val
            = some (E.formatFloat (strconv.toUint32 val.Integer) 32))
      ∧ (val.Type_ = E.types.TypeFloat64 → ∀ isJson,
          internalEncoder.renderedValue E isJson val
            = some (E.formatFloat (strconv.toUint64 val.Integer) 64))
      ∧ (val.Type_ = E.types.TypeNull → ∀ isJson,
          internalEncoder.renderedValue E isJson val = some val.String) := by
  obtain ⟨j, hj1, hj2, hin⟩ := h.plain_class hk
  obtain ⟨c0, -, -, -, -, -, -, -, -, c9, c10⟩ := h.conds j (by omega) val.Type_ hin
  have hm := internalEncoder.renderedValue_mode E val (c0 (by omega)) (c9 (by omega))
    (c10 (by omega))
  refine ⟨hm, ?_, ?_, ?_, ?_, ?_⟩
  · rw [internalEncoder.appendFieldValue_json, hm]
    simp
  · rw [internalEncoder.appendFieldValue_line]
    simp
  · exact fun hf isJson => internalEncoder.renderedValue_float32 E h isJson val hf
  · exact fun hf isJson => internalEncoder.renderedValue_float64 E h isJson val hf
  · exact fun hf isJson => internalEncoder.renderedValue_null E h isJson val hf

/-- Witness of C12: a null field and a float field of the example table. -/
theorem plain_value_mode_independent_witness :
    exampleEnv.types.Valid
      ∧ internalEncoder.renderedValue exampleEnv true
          { Key := lit "p", Type_ := exampleTypes.TypeNull, String := lit "null" }
        = internalEncoder.renderedValue exampleEnv false
          { Key := lit "p", Type_ := exampleTypes.TypeNull, String := lit "null" }
      ∧ internalEncoder.renderedValue exampleEnv true
          { Key := lit "p", Type_ := exampleTypes.TypeNull, String := lit "null" }
        = some (lit "null") :=
  ⟨by decide,
    (plain_value_mode_independent exampleEnv (by decide)
      { Key := lit "p", Type_ := exampleTypes.TypeNull, String := lit "null" } (by decide)).1,
    (plain_value_mode_independent exampleEnv (by decide)
      { Key := lit "p", Type_ := exampleTypes.TypeNull, String := lit "null" }
      (by decide)).2.2.2.2.2 rfl true⟩

/-- C13. Prefix and suffix are JSON-only in `encoder/field.go`: the JSON encoder
emits each field as `"key": ` followed by the prefix, the rendered value and the
suffix, and the line encoder gives the same bytes for two field sequences that
differ in prefixes and suffixes only. -/
theorem affixes_json_only (E : Env) (dst messageKey message fieldsKey : Bytes)
    (val : List Field) :
    encoder.AppendFieldAndMsgJSON E dst messageKey message fieldsKey val
        = jsonLayout dst messageKey message fieldsKey
            (val.map (fun v => [34] ++ v.Key ++ lit "\": " ++ v.Prefix
              ++ encoder.appendFieldValue E [] v ++ v.Suffix))
      ∧ encoder.AppendFieldAndMsg E dst message val
        = encoder.AppendFieldAndMsg E dst message (val.map Field.clearAffixes)
      ∧ ∀ other : List Field, val.map Field.clearAffixes = other.map Field.clearAffixes →
          encoder.AppendFieldAndMsg E dst message val
            = encoder.AppendFieldAndMsg E dst message other := by
  have hc : ∀ fs : List Field, encoder.AppendFieldAndMsg E dst message fs
      = encoder.AppendFieldAndMsg E dst message (fs.map Field.clearAffixes) := by
    intro fs
    rw [encoder.AppendFieldAndMsg_layout, encoder.AppendFieldAndMsg_layout, List.map_map]
    congr 1
  refine ⟨encoder.AppendFieldAndMsgJSON_layout E dst messageKey message fieldsKey val, hc val, ?_⟩
  intro other ho
  rw [hc val, hc other, ho]

/-- Witness of C13: the same field with and without brackets as prefix and suffix. -/
theorem affixes_json_only_witness :
    [({ Key := lit "k", ValType := exampleTypes.TypeString, Bytes := lit "v",
        Prefix := lit "[", Suffix := lit "]" } : Field)].map Field.clearAffixes
        = [({ Key := lit "k", ValType := exampleTypes.TypeString, Bytes := lit "v" } : Field)].map
            Field.clearAffixes
      ∧ encoder.AppendFieldAndMsg exampleEnv [] (lit "m")
          [{ Key := lit "k", ValType := exampleTypes.TypeString, Bytes := lit "v",
             Prefix := lit "[", Suffix := lit "]" }]
        = encoder.AppendFieldAndMsg exampleEnv [] (lit "m")
          [{ Key := lit "k", ValType := exampleTypes.TypeString, Bytes := lit "v" }] :=
  ⟨by decide,
    (affixes_json_only exampleEnv [] (lit "msg") (lit "m") (lit "fields")
      [{ Key := lit "k", ValType := exampleTypes.TypeString, Bytes := lit "v",
         Prefix := lit "[", Suffix := lit "]" }]).2.2
      [{ Key := lit "k", ValType := exampleTypes.TypeString, Bytes := lit "v" }] (by decide)⟩

/-- C14. Nullable constructors: with a `nil` pointer `Timep` and `Durationp`
return the null field of the key (null kind, text payload `null`, the key
kept), and with a pointer to a value they return what `Time` and `Duration`
return for that value. -/
theorem nullable_constructors (T : Types) (key : Bytes) (format : List Bytes) :
    field.Timep T key none format = field.nullField T key
      ∧ field.Durationp T key none = field.nullField T key
      ∧ (field.nullField T key).Type_ = T.TypeNull
      ∧ (field.nullField T key).String = lit "null"
      ∧ (field.nullField T key).Key = key
      ∧ (∀ t : time.Time, field.Timep T key (some t) format = field.Time T key t format)
      ∧ (∀ d : Int, field.Durationp T key (some d) = field.Duration T key d) :=
  ⟨rfl, rfl, rfl, rfl, rfl, fun _ => rfl, fun _ => rfl⟩

/-- C15. Append-only and buffer-independent: the result of each of the four
encoder functions is the buffer followed by the result of the same call on an
empty buffer, so the bytes of the buffer stay in front unchanged and what is
appended does not depend on them. -/
theorem append_only (E : Env) (dst messageKey message fieldsKey : Bytes) (val : List Field) :
    internalEncoder.AppendFieldAndMsg E dst message val
        = (internalEncoder.AppendFieldAndMsg E [] message val).map (fun out => dst ++ out)
      ∧ internalEncoder.AppendFieldAndMsgJSON E dst messageKey message fieldsKey val
        = (internalEncoder.AppendFieldAndMsgJSON E [] messageKey message fieldsKey val).map
            (fun out => dst ++ out)
      ∧ encoder.AppendFieldAndMsg E dst message val
        = dst ++ encoder.AppendFieldAndMsg E [] message val
      ∧ encoder.AppendFieldAndMsgJSON E dst messageKey message fieldsKey val
        = dst ++ encoder.AppendFieldAndMsgJSON E [] messageKey message fieldsKey val := by
  refine ⟨?_, ?_, ?_, ?_⟩
  · rw [internalEncoder.AppendFieldAndMsg_eq, internalEncoder.AppendFieldAndMsg_eq]
    cases sequence (val.map (internalEncoder.lineItem E)) with
    | none => rfl
    | some items => simp only [Option.map_some', lineLayout_dst dst]
  · rw [internalEncoder.AppendFieldAndMsgJSON_eq, internalEncoder.AppendFieldAndMsgJSON_eq]
    cases sequence (val.map (internalEncoder.jsonItem E)) with
    | none => rfl
    | some items => simp only [Option.map_some', jsonLayout_dst dst]
  · rw [encoder.AppendFieldAndMsg_layout, encoder.AppendFieldAndMsg_layout, lineLayout_dst dst]
  · rw [encoder.AppendFieldAndMsgJSON_layout, encoder.AppendFieldAndMsgJSON_layout,
      jsonLayout_dst dst]

/-- C16. What the code does with the size: `SetMaxSize` converts the `int`
1024*1024 to `uint16`, which is 0, before it multiplies, so after `SetMaxSize(n)`
the field `maxSize` is 0 for every `n`; the logger of `New()` has the maximum
capacity 0 and not 104857600 bytes. -/
theorem max_size_truncated :
    (∀ (belog : logger.beLog) (n : Nat), (logger.SetMaxSize belog n).maxSize = 0)
      ∧ logger.New.maxSize = 0
      ∧ (logger.SetMaxSize {} 100).maxSize ≠ 100 * 1024 * 1024 := by
  refine ⟨?_, by decide, by decide⟩
  intro belog n
  simp [logger.SetMaxSize]

/-- C17. The level set only grows: the logger of `New()` has the six levels,
`SetLevel` inserts the levels given and leaves every other entry as it is, no
setter removes a level, so on a logger obtained from `New()` by any setter calls
each of the six level methods passes its level check and calls `print`; after
`SetLevel(LevelError)` alone `Trace` still calls `print`. -/
theorem level_set_only_grows :
    (∀ k, 1 ≤ k → k ≤ 6 → (logger.New.level.get k).isSome = true)
      ∧ (∀ (belog : logger.beLog) (val : List Nat) (k : Nat),
          (k ∈ val → ((logger.SetLevel belog val).level.get k).isSome = true)
          ∧ (k ∉ val → (logger.SetLevel belog val).level.get k = belog.level.get k))
      ∧ (∀ (belog : logger.beLog) (call : logger.Setter) (k : Nat),
          (belog.level.get k).isSome = true →
          ((logger.Setter.apply belog call).level.get k).isSome = true)
      ∧ (∀ (calls : List logger.Setter) (logStr : Bytes),
          (logger.Trace (logger.configure logger.New calls) logStr).isSome = true
          ∧ (logger.Debug (logger.configure logger.New calls) logStr).isSome = true
          ∧ (logger.Info (logger.configure logger.New calls) logStr).isSome = true
          ∧ (logger.Warn (logger.configure logger.New calls) logStr).isSome = true
          ∧ (logger.Error (logger.configure logger.New calls) logStr).isSome = true
          ∧ (logger.Fatal (logger.configure logger.New calls) logStr).isSome = true)
      ∧ (∀ logStr : Bytes,
          logger.Trace (logger.SetLevel logger.New [logger.LevelError]) logStr
            = some (logStr, 84)) := by
  refine ⟨logger.New_levels, ?_, logger.apply_keeps, ?_, ?_⟩
  · intro belog val k
    exact ⟨logger.SetLevel_inserts belog val k, logger.SetLevel_others belog val k⟩
  · intro calls logStr
    have hk : ∀ k, 1 ≤ k → k ≤ 6 →
        (logger.levelMethod k (logger.configure logger.New calls) logStr).isSome = true :=
      fun k h1 h6 => logger.levelMethod_isSome k _ logStr
        (logger.configure_keeps calls k _ (logger.New_levels k h1 h6))
    exact ⟨hk 1 (by decide) (by decide), hk 2 (by decide) (by decide),
      hk 3 (by decide) (by decide), hk 4 (by decide) (by decide),
      hk 5 (by decide) (by decide), hk 6 (by decide) (by decide)⟩
  · intro logStr
    rfl

/-- Witness of C17: after `SetLevel(LevelError)` the logger of `New()` still has
the level `LevelTrace`. -/
theorem level_set_only_grows_witness :
    (logger.New.level.get logger.LevelTrace).isSome = true
      ∧ ((logger.Setter.apply logger.New (logger.Setter.setLevel [logger.LevelError])).level.get
          logger.LevelTrace).isSome = true :=
  ⟨level_set_only_grows.1 logger.LevelTrace (by decide) (by decide),
    level_set_only_grows.2.2.1 logger.New (logger.Setter.setLevel [logger.LevelError])
      logger.LevelTrace (level_set_only_grows.1 logger.LevelTrace (by decide) (by decide))⟩

/-- C18. The millisecond field of the log prefix: `print` computes
`UnixMilli % Unix`; for an instant with Unix seconds `s >= 1000` and
`UnixMilli = 1000*s + ms`, `ms` in 0..999, the expression is `ms`, which `%03d`
prints as exactly three digits; for `s = 0` the remainder divides by zero.  The
equation for `UnixMilli` holds for every instant whose milliseconds fit in an
`int64`. -/
theorem millis_field (t : time.Time) :
    (∀ s ms : Int, t.Unix = s → 1000 ≤ s → 0 ≤ ms → ms ≤ 999 → t.UnixMilli = 1000 * s + ms →
        logger.printMillis t = some ms
          ∧ (logger.fmt03d ms).length = 3
          ∧ (logger.fmt03d ms).all isDigit = true
          ∧ (readDigits (logger.fmt03d ms) : Int) = ms)
      ∧ (t.Unix = 0 → logger.printMillis t = none)
      ∧ (0 ≤ t.sec → t.nsec < 1000000000 → t.sec * 1000 + 999 < 2 ^ 63 →
          t.UnixMilli = 1000 * t.Unix + (t.nsec / 1000000 : Nat)
            ∧ (t.nsec / 1000000 : Nat) ≤ 999) := by
  refine ⟨?_, ?_, ?_⟩
  · intro s ms hs h1000 h0 h1 hu
    have hlen := strconv.formatBits_length_le_three ms.toNat (by omega)
    have hneg : ¬ ms < 0 := by omega
    refine ⟨?_, ?_, ?_, ?_⟩
    · have hne : ¬ s = 0 := by omega
      simp only [logger.printMillis, hu, hs, logger.tmod_millis s ms h1000 h0 h1, if_neg hne]
    · simp only [logger.fmt03d, hneg, if_false, List.length_append, List.length_replicate]
      omega
    · simp only [logger.fmt03d, hneg, if_false, List.all_append, strconv.formatBits_all_digit,
        Bool.and_true, List.all_replicate]
      simp
      right
      decide
    · simp only [logger.fmt03d, hneg, if_false, readDigits_zeros, strconv.readDigits_formatBits]
      omega
  · intro h0
    simp [logger.printMillis, h0]
  · intro h0 hn hb
    have hq : t.nsec / 1000000 ≤ 999 := by omega
    refine ⟨?_, hq⟩
    rw [time.UnixMilli_eq t (by omega) (by omega)]
    rfl

/-- Witness of C18: an instant in November 2023 with 123 milliseconds. -/
theorem millis_field_witness :
    logger.printMillis { sec := 1700000000, nsec := 123456789 } = some 123
      ∧ (logger.fmt03d 123).length = 3 :=
  ⟨((millis_field { sec := 1700000000, nsec := 123456789 }).1 1700000000 123 rfl (by decide)
      (by decide) (by decide) (by decide)).1,
    ((millis_field { sec := 1700000000, nsec := 123456789 }).1 1700000000 123 rfl (by decide)
      (by decide) (by decide) (by decide)).2.1⟩

/-- C19. The line encoding distributes over the concatenation of field
sequences: encoding `xs ++ ys` with the message is encoding `xs` with the empty
message and then `ys` with the message into the buffer so obtained. -/
theorem line_concat (E : Env) (dst message : Bytes) (xs ys : List Field) :
    internalEncoder.AppendFieldAndMsg E dst message (xs ++ ys)
        = (internalEncoder.AppendFieldAndMsg E dst [] xs).bind
            (fun d => internalEncoder.AppendFieldAndMsg E d message ys)
      ∧ encoder.AppendFieldAndMsg E dst message (xs ++ ys)
        = encoder.AppendFieldAndMsg E (encoder.AppendFieldAndMsg E dst [] xs) message ys := by
  constructor
  · simp only [internalEncoder.AppendFieldAndMsg, internalEncoder.lineLoop_append,
      convert.StringToBytes]
    cases internalEncoder.lineLoop E dst xs with
    | none => rfl
    | some d => simp
  · simp only [encoder.AppendFieldAndMsg, encoder.lineLoop_append_legacy, convert.StringToBytes,
      List.append_nil]

/-- C20. The line format is not injective: a string field `a` of text `b` with
the message `c`, and no field with the message `a: b, c`, are different inputs
that give the same bytes `a: b, c` after the buffer. -/
theorem line_not_injective (E : Env) (h : E.types.Valid) (dst : Bytes) :
    internalEncoder.AppendFieldAndMsg E dst (lit "c")
        [{ Key := lit "a", Type_ := E.types.TypeString, String := lit "b" }]
        = some (dst ++ lit "a: b, c")
      ∧ internalEncoder.AppendFieldAndMsg E dst (lit "a: b, c") [] = some (dst ++ lit "a: b, c")
      ∧ (([{ Key := lit "a", Type_ := E.types.TypeString, String := lit "b" }] : List Field),
          lit "c") ≠ (([] : List Field), lit "a: b, c") := by
  have hv : internalEncoder.renderedValue E false
      { Key := lit "a", Type_ := E.types.TypeString, String := lit "b" } = some (lit "b") := by
    rw [internalEncoder.renderedValue_string E h false _ (h.string_range (Or.inl rfl))]
    rfl
  have hl : lit "a" ++ lit ": " ++ lit "b" ++ lit ", " ++ lit "c" = lit "a: b, c" := by decide
  refine ⟨?_, rfl, ?_⟩
  · rw [internalEncoder.AppendFieldAndMsg_eq]
    simp only [List.map_cons, List.map_nil, internalEncoder.lineItem, hv, Option.map_some',
      sequence, lineLayout, List.flatten_cons, List.flatten_nil, List.append_nil]
    rw [← hl]
    simp [List.append_assoc]
  · intro he
    have := congrArg (fun p => p.1.length) he
    simp at this

/-- Witness of C20: the two inputs with the example table and an empty buffer. -/
theorem line_not_injective_witness :
    exampleEnv.types.Valid
      ∧ internalEncoder.AppendFieldAndMsg exampleEnv [] (lit "c")
          [{ Key := lit "a", Type_ := exampleEnv.types.TypeString, String := lit "b" }]
        = internalEncoder.AppendFieldAndMsg exampleEnv [] (lit "a: b, c") [] :=
  ⟨by decide,
    ((line_not_injective exampleEnv (by decide) []).1).trans
      ((line_not_injective exampleEnv (by decide) []).2.1).symm⟩

end Belog
